import Mathlib

set_option maxRecDepth 100000

/-!
Verification development for the CogniCode Agent backend
(`server/services/code_service.py`, `server/agents/*.py`, `server/app.py`).

The Python sources are shallowly embedded: pure helpers become Lean
functions, the stateful cache / agent-pool objects become explicit state
records with state-passing operations, wall-clock time (`datetime.utcnow`)
becomes an explicit `Int` parameter counting seconds (datetime arithmetic
restricted to whole seconds; the float average in the performance stats
stays an exact rational), and Python `dict`s
(which preserve insertion order and update values in place) become
insertion-ordered association lists.  `hashlib.md5(...).hexdigest()` is
embedded as a full MD5 implementation over `Nat` byte lists.
-/

namespace Py

/-- The six ASCII whitespace characters that Python's `str.strip` /
`str.rstrip` (with no argument) remove, restricted to ASCII input:
space, tab, newline, carriage return, vertical tab, form feed. -/
def isSpace (c : Char) : Bool :=
  c = ' ' || c = '\t' || c = '\n' || c = Char.ofNat 13 || c = Char.ofNat 11 || c = Char.ofNat 12

/-- `str.lstrip()` on a character list. -/
def lstripL (l : List Char) : List Char := l.dropWhile isSpace

/-- `str.rstrip()` on a character list. -/
def rstripL (l : List Char) : List Char := (l.reverse.dropWhile isSpace).reverse

/-- `str.strip()` on a character list. -/
def stripL (l : List Char) : List Char := rstripL (lstripL l)

/-- `str.strip()`. -/
def strip (s : String) : String := ⟨stripL s.data⟩

/-- `str.rstrip()`. -/
def rstrip (s : String) : String := ⟨rstripL s.data⟩

/-- Python truthiness of `line.strip()`: `blank s` holds when the string is
empty or all whitespace (so `not line.strip()` is true in the source). -/
def blank (s : String) : Bool := strip s = ""

/-- The maximal `'\n'`-free segments of a character list (`k` newlines
produce `k + 1` segments). -/
def splitNl : List Char → List (List Char)
  | [] => [[]]
  | c :: t =>
    match splitNl t with
    | [] => [[]]
    | h :: r => if c = '\n' then [] :: h :: r else (c :: h) :: r

/-- `str.splitlines()` for strings whose only line terminator is `'\n'`
(the inputs handled by this backend): the newline-separated segments,
except that the empty string yields `[]` and a trailing newline does not
produce a final empty line. -/
def splitlines (s : String) : List String :=
  if s.data = [] then []
  else
    let segs := (splitNl s.data).map fun l => (⟨l⟩ : String)
    if segs.getLast? = some "" then segs.dropLast else segs

/-- `'\n'.join(lines)`. -/
def joinLines (lines : List String) : String := String.intercalate "\n" lines

/-- ASCII lower-casing, `str.lower()` on the ASCII inputs used here. -/
def lower (s : String) : String := ⟨s.data.map Char.toLower⟩

/-- Substring test on character lists: `needle in hay` (Python `in`). -/
def containsSubL (hay needle : List Char) : Bool :=
  match hay with
  | [] => needle.isEmpty
  | _ :: t => needle.isPrefixOf hay || containsSubL t needle

/-- Python `needle in hay` on strings. -/
def containsSub (hay needle : String) : Bool := containsSubL hay.data needle.data

/-- Fuel-based scanner behind `countSub`; the fuel is an upper bound on
the number of scanning steps, so the recursion is structural and the
definition evaluates inside the kernel. -/
def countSubAux (needle : List Char) : Nat → List Char → Nat
  | 0, _ => 0
  | _, [] => 0
  | fuel + 1, c :: t =>
    if needle.isPrefixOf (c :: t) then
      1 + countSubAux needle fuel ((c :: t).drop needle.length)
    else countSubAux needle fuel t

/-- Python `hay.count(needle)` for a non-empty needle: number of
non-overlapping occurrences, scanning left to right. -/
def countSubL (hay needle : List Char) : Nat :=
  if needle.isEmpty then 0 else countSubAux needle hay.length hay

/-- Python `hay.count(needle)` on strings. -/
def countSub (hay needle : String) : Nat := countSubL hay.data needle.data

/-- The suffix of `hay` that follows the leftmost occurrence of `needle`,
or `none` if `needle` does not occur. -/
def afterSub? (hay needle : List Char) : Option (List Char) :=
  match hay with
  | [] => if needle.isEmpty then some [] else none
  | _ :: t =>
    if needle.isPrefixOf hay then some (hay.drop needle.length)
    else afterSub? t needle

/-- A `\w` word character for the ASCII inputs analysed here:
letters, digits, or underscore. -/
def isWordChar (c : Char) : Bool := c.isAlphanum || c = '_'

end Py

namespace MD5

/-! `hashlib.md5(text.encode('utf-8')).hexdigest()`, embedded directly:
UTF-8 encoding, RFC 1321 padding, the 64-round compression function over
`Nat` reduced mod `2 ^ 32`, and the little-endian lowercase hex digest. -/

/-- Truncation to a 32-bit word. -/
def w32 (n : Nat) : Nat := n % 4294967296

/-- 32-bit left rotation (argument assumed already < 2^32). -/
def rotl (x s : Nat) : Nat := w32 (x <<< s + x >>> (32 - s))

/-- The 64 sine-derived round constants `K[i] = floor(abs(sin(i+1)) * 2^32)`. -/
def kTable : List Nat :=
  [0xd76aa478, 0xe8c7b756, 0x242070db, 0xc1bdceee, 0xf57c0faf, 0x4787c62a,
   0xa8304613, 0xfd469501, 0x698098d8, 0x8b44f7af, 0xffff5bb1, 0x895cd7be,
   0x6b901122, 0xfd987193, 0xa679438e, 0x49b40821, 0xf61e2562, 0xc040b340,
   0x265e5a51, 0xe9b6c7aa, 0xd62f105d, 0x02441453, 0xd8a1e681, 0xe7d3fbc8,
   0x21e1cde6, 0xc33707d6, 0xf4d50d87, 0x455a14ed, 0xa9e3e905, 0xfcefa3f8,
   0x676f02d9, 0x8d2a4c8a, 0xfffa3942, 0x8771f681, 0x6d9d6122, 0xfde5380c,
   0xa4beea44, 0x4bdecfa9, 0xf6bb4b60, 0xbebfbc70, 0x289b7ec6, 0xeaa127fa,
   0xd4ef3085, 0x04881d05, 0xd9d4d039, 0xe6db99e5, 0x1fa27cf8, 0xc4ac5665,
   0xf4292244, 0x432aff97, 0xab9423a7, 0xfc93a039, 0x655b59c3, 0x8f0ccc92,
   0xffeff47d, 0x85845dd1, 0x6fa87e4f, 0xfe2ce6e0, 0xa3014314, 0x4e0811a1,
   0xf7537e82, 0xbd3af235, 0x2ad7d2bb, 0xeb86d391]

/-- Per-round left-rotation amounts. -/
def sTable : List Nat :=
  [7, 12, 17, 22, 7, 12, 17, 22, 7, 12, 17, 22, 7, 12, 17, 22,
   5, 9, 14, 20, 5, 9, 14, 20, 5, 9, 14, 20, 5, 9, 14, 20,
   4, 11, 16, 23, 4, 11, 16, 23, 4, 11, 16, 23, 4, 11, 16, 23,
   6, 10, 15, 21, 6, 10, 15, 21, 6, 10, 15, 21, 6, 10, 15, 21]

/-- The round mixing function (F, G, H, I by round quarter). -/
def mix (i b c d : Nat) : Nat :=
  if i < 16 then (b &&& c) ||| ((b ^^^ 0xffffffff) &&& d)
  else if i < 32 then (d &&& b) ||| ((d ^^^ 0xffffffff) &&& c)
  else if i < 48 then b ^^^ c ^^^ d
  else c ^^^ (b ||| (d ^^^ 0xffffffff))

/-- The message-word index used in round `i`. -/
def gIdx (i : Nat) : Nat :=
  if i < 16 then i
  else if i < 32 then (5 * i + 1) % 16
  else if i < 48 then (3 * i + 5) % 16
  else (7 * i) % 16

/-- UTF-8 encoding of one character as a list of bytes. -/
def utf8Bytes (c : Char) : List Nat :=
  let n := c.toNat
  if n < 0x80 then [n]
  else if n < 0x800 then [0xc0 ||| (n >>> 6), 0x80 ||| (n &&& 0x3f)]
  else if n < 0x10000 then
    [0xe0 ||| (n >>> 12), 0x80 ||| ((n >>> 6) &&& 0x3f), 0x80 ||| (n &&& 0x3f)]
  else
    [0xf0 ||| (n >>> 18), 0x80 ||| ((n >>> 12) &&& 0x3f),
     0x80 ||| ((n >>> 6) &&& 0x3f), 0x80 ||| (n &&& 0x3f)]

/-- `text.encode('utf-8')` as a byte list. -/
def strBytes (s : String) : List Nat := (s.data.map utf8Bytes).flatten

/-- `k` little-endian bytes of `n`. -/
def leBytes : Nat → Nat → List Nat
  | 0, _ => []
  | k + 1, n => (n % 256) :: leBytes k (n / 256)

/-- RFC 1321 padding: a `0x80` byte, zero bytes to reach 56 mod 64, then
the original length in bits as a 64-bit little-endian quantity. -/
def pad (msg : List Nat) : List Nat :=
  let len := msg.length
  let zeros := (119 - len % 64) % 64
  msg ++ 0x80 :: List.replicate zeros 0 ++ leBytes 8 ((8 * len) % 18446744073709551616)

/-- The `j`-th little-endian 32-bit word of a 64-byte chunk. -/
def word (chunk : List Nat) (j : Nat) : Nat :=
  chunk.getD (4 * j) 0 + 256 * chunk.getD (4 * j + 1) 0 +
    65536 * chunk.getD (4 * j + 2) 0 + 16777216 * chunk.getD (4 * j + 3) 0

/-- One of the 64 rounds of the compression function. -/
def stepRound (chunk : List Nat) (st : Nat × Nat × Nat × Nat) (i : Nat) :
    Nat × Nat × Nat × Nat :=
  let (a, b, c, d) := st
  let f := w32 (mix i b c d + a + kTable.getD i 0 + word chunk (gIdx i))
  (d, w32 (b + rotl f (sTable.getD i 0)), b, c)

/-- Process one 64-byte chunk. -/
def processChunk (st : Nat × Nat × Nat × Nat) (chunk : List Nat) :
    Nat × Nat × Nat × Nat :=
  let (a, b, c, d) := (List.range 64).foldl (stepRound chunk) st
  (w32 (st.1 + a), w32 (st.2.1 + b), w32 (st.2.2.1 + c), w32 (st.2.2.2 + d))

/-- Fuel-based chunker: every step consumes at least one byte, so fueling
with the byte count makes the recursion structural (kernel-reducible). -/
def chunks64Aux : Nat → List Nat → List (List Nat)
  | 0, _ => []
  | _, [] => []
  | fuel + 1, l => l.take 64 :: chunks64Aux fuel (l.drop 64)

/-- Split a byte list into 64-byte chunks. -/
def chunks64 (l : List Nat) : List (List Nat) := chunks64Aux l.length l

/-- Lowercase hex digit. -/
def hexDigit (n : Nat) : Char :=
  if n < 10 then Char.ofNat (48 + n) else Char.ofNat (87 + n)

/-- One 32-bit word rendered as 8 lowercase hex characters of its
little-endian byte order. -/
def wordHex (n : Nat) : List Char :=
  (leBytes 4 n).map (fun b => [hexDigit (b / 16), hexDigit (b % 16)]) |>.flatten

/-- `hashlib.md5(s.encode('utf-8')).hexdigest()`. -/
def md5hex (s : String) : String :=
  let (a, b, c, d) :=
    (chunks64 (pad (strBytes s))).foldl processChunk
      (0x67452301, 0xefcdab89, 0x98badcfe, 0x10325476)
  ⟨wordHex a ++ wordHex b ++ wordHex c ++ wordHex d⟩

end MD5

/-- `hexdigest()[:8]`: Python string slicing by character count. -/
def strTake (s : String) (n : Nat) : String := ⟨s.data.take n⟩

namespace PyDict

/-! Python `dict`s preserve insertion order; assigning to an existing key
updates the value in place (the key keeps its position) and assigning a
fresh key appends it.  `dict.pop(k, None)` removes the key.  We embed a
dict as an insertion-ordered association list with unique keys. -/

variable {V : Type}

/-- `d.get(k)` / `d[k]` lookup. -/
def get? : List (String × V) → String → Option V
  | [], _ => none
  | (k', v) :: t, k => if k' = k then some v else get? t k

/-- `d[k] = v`: in-place update of an existing key, else append. -/
def insert : List (String × V) → String → V → List (String × V)
  | [], k, v => [(k, v)]
  | (k', v') :: t, k, v =>
    if k' = k then (k, v) :: t else (k', v') :: insert t k v

/-- `d.pop(k, None)`: drop the entry for `k` (first occurrence). -/
def pop : List (String × V) → String → List (String × V)
  | [], _ => []
  | (k', v') :: t, k => if k' = k then t else (k', v') :: pop t k

/-- The key list, in insertion order (`list(d.keys())`). -/
def keys (d : List (String × V)) : List String := d.map Prod.fst

end PyDict

namespace StableSort

/-! Python's `list.sort(key=f)` / `sorted(..., key=f)` is a stable sort;
with `reverse=True` comparisons are flipped but ties still keep their
original order.  The embedding uses an insertion sort over a boolean
"may precede" relation `le`: `le x y = true` means `x` may stay in front
of `y` (for an ascending key sort, `key x ≤ key y`; for a descending one,
`key y ≤ key x`).  Insertion from the right end makes the sort stable. -/

variable {α : Type}

/-- Insert `x` in front of the first element it may precede. -/
def ins (le : α → α → Bool) (x : α) : List α → List α
  | [] => [x]
  | y :: ys => if le x y then x :: y :: ys else y :: ins le x ys

/-- Stable insertion sort with respect to `le`. -/
def sortStable (le : α → α → Bool) : List α → List α
  | [] => []
  | x :: xs => ins le x (sortStable le xs)

end StableSort

/-! ## Data model

Dictionaries that flow between the agents, `CodeService`, and the socket
handlers have fixed shapes in the source; they are embedded as structures.
Optional keys read with `.get(k, default)` at the consumer are `Option`
fields.  `type` is a Lean keyword, so dict key `'type'` becomes field
`kind` throughout (noted here once). -/

/-- An issue dict as produced by the linter's language analyzers
(`severity`, `message`, `line`, `suggestion`). -/
structure RawIssue where
  severity : String
  message : String
  line : Nat
  suggestion : String
deriving DecidableEq, Repr

/-- The `metrics` dict produced by the linter's language analyzers. -/
structure RawMetrics where
  complexity : Nat
  maintainability : Nat
  lines_of_code : Nat
deriving DecidableEq, Repr

/-- A function record produced by the linter's language analyzers; the
JavaScript/Java analyzers never set `parameters`, which the formatter
reads with default `[]`, so the field is a plain list. -/
structure RawFunction where
  name : String
  start_line : Nat
  end_line : Nat
  complexity : Nat
  parameters : List String
deriving DecidableEq, Repr

/-- The `ai_insights` dict built by `LinterAgent._ai_analysis`. -/
structure AIInsights where
  semantic_issues : List String
  performance_suggestions : List String
  security_concerns : List String
  code_smells : List String
deriving DecidableEq, Repr

/-- The issues/metrics/functions triple a language analyzer returns. -/
structure AnalysisCore where
  issues : List RawIssue
  metrics : RawMetrics
  functions : List RawFunction
deriving DecidableEq, Repr

/-- `LinterAgent.analyze`'s return dict: the analyzer output plus
`ai_insights` and the metadata added by `BaseAgent._postprocess_results`.
Wall-clock values (`timestamp`, `performance`) are rationals (seconds). -/
structure LinterResult where
  issues : List RawIssue
  metrics : RawMetrics
  functions : List RawFunction
  ai_insights : AIInsights
  agent : String
  model : String
  timestamp : Int
  performance : Int
deriving DecidableEq, Repr

/-- An issue dict after `CodeService._format_issues`. -/
structure FormattedIssue where
  id : String
  severity : String
  message : String
  line : Nat
  column : Nat
  suggestion : String
  rule : String
  category : String
  fixable : Bool
deriving DecidableEq, Repr

/-- The metrics dict after `CodeService._format_metrics`. -/
structure FormattedMetrics where
  complexity : Nat
  maintainability : Nat
  codeQualityScore : Int
  linesOfCode : Nat
  cyclomaticComplexity : Nat
  technicalDebt : String
  readabilityScore : Int
  testabilityScore : Int
deriving DecidableEq, Repr

/-- A function dict after `CodeService._format_functions`.  The linter
analyzers never set `type`/`returns`, so the formatter's defaults
(`'function'`, `'unknown'`) always apply. -/
structure FormattedFunction where
  id : String
  name : String
  startLine : Nat
  endLine : Nat
  complexity : Nat
  parameters : List String
  parameterCount : Nat
  lineCount : Int
  kind : String
  returns : String
deriving DecidableEq, Repr

/-- The dict built and cached by `CodeService.process_analysis`. -/
structure ProcessedAnalysis where
  issues : List FormattedIssue
  metrics : FormattedMetrics
  functions : List FormattedFunction
  ai_insights : AIInsights
  code_hash : String
  language : String
  timestamp : Int
  processing_time : Int
deriving DecidableEq, Repr

/-- A raw refactoring-suggestion dict (all keys read with defaults by
`CodeService.process_refactor_suggestions`, hence all optional). -/
structure RawSuggestion where
  kind : Option String
  title : Option String
  description : Option String
  original_code : Option String
  refactored_code : Option String
  line_start : Option Nat
  line_end : Option Nat
  impact : Option String
  impact_score : Option Int
  confidence : Option Int
  benefits : Option (List String)
  estimated_improvement : Option String
deriving DecidableEq, Repr

/-- A suggestion dict after `CodeService.process_refactor_suggestions`. -/
structure ProcessedSuggestion where
  kind : String
  title : String
  description : String
  originalCode : String
  refactoredCode : String
  lineStart : Nat
  lineEnd : Nat
  impact : String
  impactScore : Int
  confidence : Int
  benefits : List String
  estimatedImprovement : String
  id : String
deriving DecidableEq, Repr

/-- A raw test-case dict (all keys read with defaults, hence optional;
`test_data` is carried through opaquely). -/
structure RawTestCase where
  name : Option String
  description : Option String
  kind : Option String
  code : Option String
  expected_result : Option String
  test_data : Option String
  framework : Option String
deriving DecidableEq, Repr

/-- A test-case dict after `CodeService.process_test_cases`. -/
structure ProcessedTest where
  id : String
  name : String
  description : String
  kind : String
  code : String
  expectedResult : String
  testData : Option String
  framework : String
  priority : Nat
  estimatedExecutionTime : String
deriving DecidableEq, Repr

/-- Python `int(x)` on a rational: truncation toward zero (the source does
its score arithmetic in floats; we model the decimal literals exactly). -/
def ratTrunc (q : ℚ) : Int := Int.tdiv q.num q.den

namespace CodeService

/-- The mutable state of a `CodeService` instance: the three
insertion-ordered dicts plus the two configuration attributes set in
`__init__` (`cache_timeout`, hardcoded `_max_cache_size = 1000`). -/
structure State where
  analysis_cache : List (String × ProcessedAnalysis)
  cache_timestamps : List (String × Int)
  cache_timeout : Int
  max_cache_size : Nat
  cache_access_count : List (String × Nat)
deriving DecidableEq, Repr

/-- `CodeService(cache_timeout=3600)`. -/
def initState (cache_timeout : Int := 3600) : State :=
  { analysis_cache := [], cache_timestamps := [], cache_timeout,
    max_cache_size := 1000, cache_access_count := [] }

/-- `CodeService._generate_code_hash`. -/
def generate_code_hash (code : String) : String := MD5.md5hex code

/-- `CodeService._generate_suggestion_id`: note the id hashes
`suggestion.get('title', '')` (no description fallback) and
`suggestion.get('line_start', 0)` (default 0, not 1). -/
def generate_suggestion_id (s : RawSuggestion) : String :=
  strTake (MD5.md5hex (s.kind.getD "" ++ s.title.getD "" ++ toString (s.line_start.getD 0))) 8

/-- `CodeService._generate_test_id`. -/
def generate_test_id (t : RawTestCase) : String :=
  strTake (MD5.md5hex (t.name.getD "" ++ t.kind.getD "")) 8

/-- `CodeService._generate_issue_id`. -/
def generate_issue_id (i : RawIssue) : String :=
  strTake (MD5.md5hex (i.severity ++ i.message ++ toString i.line)) 8

/-- `CodeService._generate_function_id`. -/
def generate_function_id (f : RawFunction) : String :=
  strTake (MD5.md5hex (f.name ++ toString f.start_line)) 8

/-- `CodeService._categorize_issue`. -/
def categorize_issue (i : RawIssue) : String :=
  let m := Py.lower i.message
  if ["security", "xss", "sql", "eval"].any (Py.containsSub m ·) then "security"
  else if ["performance", "optimize", "slow"].any (Py.containsSub m ·) then "performance"
  else if ["style", "format", "indent"].any (Py.containsSub m ·) then "style"
  else if ["type", "undefined", "null"].any (Py.containsSub m ·) then "type"
  else "general"

/-- `CodeService._is_fixable`. -/
def is_fixable (i : RawIssue) : Bool :=
  let m := Py.lower i.message
  ["console.log", "var ", "==", "unused", "missing semicolon"].any (Py.containsSub m ·)

/-- The `severity_order` dict in `_format_issues` (`.get(sev, 0)`). -/
def severityOrder (s : String) : Nat :=
  if s = "error" then 3 else if s = "warning" then 2 else if s = "info" then 1 else 0

/-- One formatted issue (loop body of `_format_issues`; the raw linter
issues carry no `column`/`rule`, so those `.get` defaults always apply). -/
def formatIssue (i : RawIssue) : FormattedIssue :=
  { id := generate_issue_id i, severity := i.severity, message := i.message,
    line := i.line, column := 1, suggestion := i.suggestion, rule := "",
    category := categorize_issue i, fixable := is_fixable i }

/-- Sort key of `_format_issues` (`(severity_order.get(severity, 0), line)`). -/
def issueKey (x : FormattedIssue) : Nat × Nat := (severityOrder x.severity, x.line)

/-- Lexicographic `≤` on `Nat × Nat`. -/
def natPairLe (p q : Nat × Nat) : Bool :=
  p.1 < q.1 || (p.1 = q.1 && p.2 ≤ q.2)

/-- `CodeService._format_issues`: format, then stable sort by
`(severity rank, line)` descending (`reverse=True`). -/
def format_issues (issues : List RawIssue) : List FormattedIssue :=
  StableSort.sortStable (fun a b => natPairLe (issueKey b) (issueKey a))
    (issues.map formatIssue)

/-- `CodeService._calculate_quality_score` (float literals as exact
decimals, `int()` as truncation toward zero). -/
def calculate_quality_score (m : RawMetrics) : Int :=
  let complexity_score : ℚ := max 0 (100 - (m.complexity : ℚ) * 5)
  let maintainability_score : ℚ := (m.maintainability : ℚ) / 10 * 100
  let length_penalty : ℚ :=
    if m.lines_of_code > 50 then min 20 ((m.lines_of_code : ℚ) / 10) else 0
  let q := ratTrunc (complexity_score * (4/10) + maintainability_score * (5/10)
    - length_penalty * (1/10))
  min (max q 0) 100

/-- `CodeService._calculate_technical_debt` (on the capped values). -/
def calculate_technical_debt (complexity maintainability : Nat) : String :=
  let debt : Int := (complexity : Int) * 2 - (maintainability : Int)
  if debt ≤ 5 then "low" else if debt ≤ 15 then "medium" else "high"

/-- `CodeService._calculate_readability_score`. -/
def calculate_readability_score (m : RawMetrics) : Int :=
  let s1 : ℚ := 80
  let s2 : ℚ :=
    if m.lines_of_code > 50 then s1 - min 30 (((m.lines_of_code : ℚ) - 50) / 2) else s1
  let s3 : ℚ :=
    if m.complexity > 10 then s2 - min 25 (((m.complexity : ℚ) - 10) * 2) else s2
  max 0 (min 100 (ratTrunc s3))

/-- `CodeService._calculate_testability_score` (on the capped complexity). -/
def calculate_testability_score (complexity : Nat) : Int :=
  max 0 (100 - min 50 ((complexity : Int) * 3))

/-- `CodeService._format_metrics`.  The quality/readability scores read the
raw dict again, while `technicalDebt`/`testabilityScore` and the
`cyclomatic_complexity` default use the locally capped values. -/
def format_metrics (m : RawMetrics) : FormattedMetrics :=
  let complexity := min m.complexity 20
  let maintainability := min m.maintainability 10
  { complexity, maintainability,
    codeQualityScore := calculate_quality_score m,
    linesOfCode := m.lines_of_code,
    cyclomaticComplexity := complexity,
    technicalDebt := calculate_technical_debt complexity maintainability,
    readabilityScore := calculate_readability_score m,
    testabilityScore := calculate_testability_score complexity }

/-- One formatted function (loop body of `_format_functions`). -/
def formatFunction (f : RawFunction) : FormattedFunction :=
  { id := generate_function_id f, name := f.name, startLine := f.start_line,
    endLine := f.end_line, complexity := f.complexity,
    parameters := f.parameters, parameterCount := f.parameters.length,
    lineCount := (f.end_line : Int) - (f.start_line : Int) + 1,
    kind := "function", returns := "unknown" }

/-- Sort key of `_format_functions` (`(complexity, lineCount)`). -/
def functionKey (x : FormattedFunction) : Nat × Int := (x.complexity, x.lineCount)

/-- Lexicographic `≤` on `Nat × Int`. -/
def natIntPairLe (p q : Nat × Int) : Bool :=
  p.1 < q.1 || (p.1 = q.1 && p.2 ≤ q.2)

/-- `CodeService._format_functions`: format, then stable sort by
`(complexity, lineCount)` descending. -/
def format_functions (funcs : List RawFunction) : List FormattedFunction :=
  StableSort.sortStable (fun a b => natIntPairLe (functionKey b) (functionKey a))
    (funcs.map formatFunction)

/-- One processed suggestion (loop body of `process_refactor_suggestions`). -/
def processSuggestion (s : RawSuggestion) : ProcessedSuggestion :=
  { kind := s.kind.getD "general",
    title := s.title.getD (s.description.getD ""),
    description := s.description.getD "",
    originalCode := s.original_code.getD "",
    refactoredCode := s.refactored_code.getD "",
    lineStart := s.line_start.getD 1, lineEnd := s.line_end.getD 1,
    impact := s.impact.getD "medium",
    impactScore := s.impact_score.getD 5, confidence := s.confidence.getD 50,
    benefits := s.benefits.getD [],
    estimatedImprovement := s.estimated_improvement.getD "",
    id := generate_suggestion_id s }

/-- Sort key of `process_refactor_suggestions`
(`(x.get('impactScore', 0), x.get('confidence', 0))`; both keys are always
present on a processed suggestion). -/
def suggestionKey (x : ProcessedSuggestion) : Int × Int := (x.impactScore, x.confidence)

/-- Lexicographic `≤` on `Int × Int`. -/
def intPairLe (p q : Int × Int) : Bool :=
  p.1 < q.1 || (p.1 = q.1 && p.2 ≤ q.2)

/-- `CodeService.process_refactor_suggestions`: format each suggestion,
then stable sort by `(impactScore, confidence)` descending. -/
def process_refactor_suggestions (suggestions : List RawSuggestion) :
    List ProcessedSuggestion :=
  StableSort.sortStable (fun a b => intPairLe (suggestionKey b) (suggestionKey a))
    (suggestions.map processSuggestion)

/-- The `priority_map` in `_calculate_test_priority` (`.get(type, 5)`). -/
def priorityMap (k : String) : Nat :=
  if k = "unit" then 8 else if k = "integration" then 6
  else if k = "edge_case" then 7 else if k = "performance" then 5
  else if k = "negative" then 6 else 5

/-- `CodeService._calculate_test_priority`. -/
def calculate_test_priority (t : RawTestCase) : Nat :=
  let base := priorityMap (t.kind.getD "unit")
  let base := if Py.containsSub (Py.lower (t.name.getD "")) "fibonacci"
    then base + 1 else base
  min 10 base

/-- `CodeService._estimate_execution_time` (`.get(type, '< 50ms')`). -/
def estimate_execution_time (t : RawTestCase) : String :=
  let k := t.kind.getD "unit"
  if k = "unit" then "< 10ms" else if k = "integration" then "50-200ms"
  else if k = "edge_case" then "10-50ms" else if k = "performance" then "100ms-1s"
  else if k = "negative" then "< 20ms" else "< 50ms"

/-- One processed test case (loop body of `process_test_cases`, at
enumeration index `i`). -/
def processTest (i : Nat) (t : RawTestCase) : ProcessedTest :=
  { id := "test_" ++ toString i ++ "_" ++ generate_test_id t,
    name := t.name.getD ("Test " ++ toString (i + 1)),
    description := t.description.getD "",
    kind := t.kind.getD "unit",
    code := t.code.getD "",
    expectedResult := t.expected_result.getD "pass",
    testData := t.test_data,
    framework := t.framework.getD "jest",
    priority := calculate_test_priority t,
    estimatedExecutionTime := estimate_execution_time t }

/-- Sort key of `process_test_cases` (`(priority, type == 'unit')`,
where `False < True`). -/
def testKey (x : ProcessedTest) : Nat × Nat :=
  (x.priority, if x.kind = "unit" then 1 else 0)

/-- `CodeService.process_test_cases`: number each case with `enumerate`,
format, then stable sort by `(priority, is-unit)` descending. -/
def process_test_cases (test_cases : List RawTestCase) : List ProcessedTest :=
  StableSort.sortStable (fun a b => natPairLe (testKey b) (testKey a))
    (test_cases.enum.map fun p => processTest p.1 p.2)

/-- `CodeService._remove_from_cache`. -/
def remove_from_cache (s : State) (code_hash : String) : State :=
  { s with analysis_cache := PyDict.pop s.analysis_cache code_hash,
           cache_timestamps := PyDict.pop s.cache_timestamps code_hash,
           cache_access_count := PyDict.pop s.cache_access_count code_hash }

/-- `CodeService.get_cached_analysis(code)` at wall-clock time `now`:
returns the hit (a copy of the stored dict) and the successor state.
A hit bumps the access count; a missing or out-of-date timestamp removes
the entry (`timestamp and now - timestamp < timeout` is falsy). -/
def get_cached_analysis (s : State) (code : String) (now : Int) :
    Option ProcessedAnalysis × State :=
  match PyDict.get? s.analysis_cache (generate_code_hash code) with
  | none => (none, s)
  | some v =>
    match PyDict.get? s.cache_timestamps (generate_code_hash code) with
    | some ts =>
      if now - ts < s.cache_timeout then
        (some v, { s with cache_access_count := PyDict.insert s.cache_access_count (generate_code_hash code) ((PyDict.get? s.cache_access_count (generate_code_hash code)).getD 0 + 1) })
      else (none, remove_from_cache s (generate_code_hash code))
    | none => (none, remove_from_cache s (generate_code_hash code))

/-- `CodeService._cleanup_lru_cache`: stable-sort the access counts
ascending and evict the first `max(1, n // 4)` keys. -/
def cleanup_lru_cache (s : State) : State :=
  if s.cache_access_count.isEmpty then s
  else
    let sorted_items :=
      StableSort.sortStable (fun a b => a.2 ≤ b.2) s.cache_access_count
    let items_to_remove := max 1 (sorted_items.length / 4)
    (sorted_items.take items_to_remove).foldl
      (fun st p => remove_from_cache st p.1) s

/-- `CodeService._cache_result`: evict first if the cache is already at
capacity, then insert into all three dicts with access count 1. -/
def cache_result (s : State) (code_hash : String) (result : ProcessedAnalysis)
    (now : Int) : State :=
  let s := if s.analysis_cache.length ≥ s.max_cache_size then cleanup_lru_cache s else s
  { s with analysis_cache := PyDict.insert s.analysis_cache code_hash result,
           cache_timestamps := PyDict.insert s.cache_timestamps code_hash now,
           cache_access_count := PyDict.insert s.cache_access_count code_hash 1 }

/-- `CodeService.clear_old_cache`: drop entries whose age strictly exceeds
the timeout, then evict if still over capacity. -/
def clear_old_cache (s : State) (now : Int) : State :=
  let expired_keys :=
    (s.cache_timestamps.filter fun p => now - p.2 > s.cache_timeout).map Prod.fst
  let s := expired_keys.foldl remove_from_cache s
  if s.analysis_cache.length > s.max_cache_size then cleanup_lru_cache s else s

/-- `CodeService.clear_cache`. -/
def clear_cache (s : State) : State :=
  { s with analysis_cache := [], cache_timestamps := [], cache_access_count := [] }

/-- `CodeService.process_analysis`: serve from cache when possible, else
format the linter result, cache it, and return it. -/
def process_analysis (s : State) (analysis : LinterResult) (code language : String)
    (now : Int) : ProcessedAnalysis × State :=
  match get_cached_analysis s code now with
  | (some cached, s') => (cached, s')
  | (none, s') =>
    let processed : ProcessedAnalysis :=
      { issues := format_issues analysis.issues,
        metrics := format_metrics analysis.metrics,
        functions := format_functions analysis.functions,
        ai_insights := analysis.ai_insights,
        code_hash := generate_code_hash code, language := language,
        timestamp := now, processing_time := analysis.performance }
    (processed, cache_result s' (generate_code_hash code) processed now)

end CodeService

namespace BaseAgent

/-- `BaseAgent._preprocess_code`.  The `language` argument is unused in the
source; interior blank lines are kept only when the input has fewer than
100 lines, and blank lines are trimmed from both ends. -/
def preprocess_code (code : String) : String :=
  if Py.blank code then ""
  else
    let lines := Py.splitlines code
    let cleaned := (lines.filter fun l => !Py.blank l || lines.length < 100).map Py.rstrip
    let cleaned := cleaned.dropWhile Py.blank
    let cleaned := (cleaned.reverse.dropWhile Py.blank).reverse
    Py.joinLines cleaned

/-- The mutable `BaseAgent` attributes that `analyze` touches
(`status`, `last_run`, `_performance_stats`). -/
structure AgentState where
  status : String
  last_run : Option Int
  total_runs : Nat
  total_time : Int
  avg_time : ℚ
  last_performance : Int
deriving DecidableEq, Repr

/-- A freshly constructed agent (`BaseAgent.__init__`). -/
def initAgentState : AgentState :=
  { status := "idle", last_run := none, total_runs := 0, total_time := 0,
    avg_time := 0, last_performance := 0 }

/-- `BaseAgent._track_performance`. -/
def track_performance (st : AgentState) (start_t end_t : Int) : AgentState :=
  let d := end_t - start_t
  let runs := st.total_runs + 1
  let tot := st.total_time + d
  let avg := tot / (runs : ℚ)
  { st with total_runs := runs, total_time := tot, avg_time := avg,
            last_performance := d }

/-- `BaseAgent.initialize`, parameterized by the outcome of the
subclass-specific `_load_model` (the shipped `LinterAgent._load_model`
always returns `True`; `_load_model` is abstract in `BaseAgent`).
Returns the new agent state and the boolean result.  (The source method
name is `initialize`; that identifier is renamed here.) -/
def initAgent (loadOk : Bool) (a : AgentState) : AgentState × Bool :=
  if a.status = "ready" then (a, true)
  else
    let a := { a with status := "initializing" }
    if loadOk then ({ a with status := "ready" }, true)
    else ({ a with status := "error" }, false)

end BaseAgent

namespace LinterAgent

open BaseAgent

/-! Each concrete regular expression of `linter_agent.py` is embedded as a
dedicated scanner with the same matching semantics on the ASCII inputs the
patterns target. -/

/-- `re.search(r'\bvar\s+', line)`: an occurrence of `var` preceded by a
non-word character (or start of string) and followed by at least one
whitespace character. -/
def scanVar (prev : Option Char) : List Char → Bool
  | [] => false
  | c :: t =>
    ((match prev with | none => true | some p => !Py.isWordChar p)
      && ['v', 'a', 'r'].isPrefixOf (c :: t)
      && (match ((c :: t).drop 3).head? with
          | some ch => Py.isSpace ch
          | none => false))
    || scanVar (some c) t

/-- `re.search(r'\b==\b(?!=)', line)`: `==` with a word character on each
side (the word boundaries force that, and then the lookahead is vacuous). -/
def scanEqEq (prev : Option Char) : List Char → Bool
  | [] => false
  | c :: t =>
    ((match prev with | some p => Py.isWordChar p | none => false)
      && c = '='
      && t.head? = some '='
      && (match (t.drop 1).head? with
          | some ch => Py.isWordChar ch
          | none => false))
    || scanEqEq (some c) t

/-- `re.search(lit + r'\s*' + esc(c), line)`: the literal followed by
arbitrary whitespace and then the character `c` (used for `eval\s*\(` and
`innerHTML\s*=`; neither pattern has a word boundary). -/
def scanLitSpacesChar (lit : List Char) (c : Char) : List Char → Bool
  | [] => false
  | x :: t =>
    (lit.isPrefixOf (x :: t)
      && (((x :: t).drop lit.length).dropWhile Py.isSpace).head? = some c)
    || scanLitSpacesChar lit c t

/-- `LinterAgent._check_javascript_patterns` on one stripped line: the
issues it appends (in pattern order) and the complexity increment
(+2 per error, +1 per warning). -/
def check_javascript_patterns (line : String) (line_num : Nat) :
    List RawIssue × Nat :=
  let l := line.data
  let hits : List (Bool × String × String × String) :=
    [(scanVar none l, "warning", "Use const or let instead of var",
        "Replace var with const or let for better scoping"),
     (scanEqEq none l, "warning",
        "Use strict equality (===) instead of loose equality (==)",
        "Replace == with === for type-safe comparison"),
     (Py.containsSub line "console.log", "info", "Console statement found",
        "Remove console.log statements in production code"),
     (scanLitSpacesChar "eval".data '(' l, "error",
        "Avoid using eval() - security risk",
        "Replace eval() with safer alternatives"),
     (scanLitSpacesChar "innerHTML".data '=' l, "warning",
        "Potential XSS vulnerability with innerHTML",
        "Use textContent or sanitize input")]
  hits.foldl
    (fun acc h =>
      if h.1 then
        (acc.1 ++ [⟨h.2.1, h.2.2.1, line_num, h.2.2.2⟩],
         acc.2 + (if h.2.1 = "error" then 2 else if h.2.1 = "warning" then 1 else 0))
      else acc)
    ([], 0)

/-- `re.finditer(r'function\s+(\w+)', line)`: every non-overlapping match
of the literal `function`, one or more whitespace characters, then a
maximal word run (the captured name); scanning resumes after each name. -/
def findFunctionNames : Nat → List Char → List String
  | 0, _ => []
  | _, [] => []
  | fuel + 1, l@(_ :: t) =>
    if "function".data.isPrefixOf l then
      let rest := l.drop 8
      let spaces := rest.takeWhile Py.isSpace
      let after := rest.dropWhile Py.isSpace
      let name := after.takeWhile Py.isWordChar
      if spaces.length ≥ 1 && name.length ≥ 1 then
        (⟨name⟩ : String) :: findFunctionNames fuel (after.drop name.length)
      else findFunctionNames fuel t
    else findFunctionNames fuel t

/-- `len(re.findall(rf'\b{kw}\b', code, re.IGNORECASE))`: occurrences of
the (lowercase) keyword with non-word/edge context on both sides, counted
case-insensitively.  Word boundaries make overlaps impossible, so counting
every matching position equals the non-overlapping `findall` count. -/
def countWordCI (kw : List Char) (code : List Char) : Nat :=
  go none code
where
  go (prev : Option Char) : List Char → Nat
    | [] => 0
    | c :: t =>
      (if (match prev with | none => true | some p => !Py.isWordChar p)
          && kw.isPrefixOf ((c :: t).map Char.toLower)
          && (match ((c :: t).drop kw.length).head? with
              | none => true
              | some ch => !Py.isWordChar ch)
       then 1 else 0) + go (some c) t

/-- The complexity added by `LinterAgent._calculate_complexity`:
case-insensitive word-bounded keyword counts plus the recursive-fibonacci
special case. -/
def calculate_complexity_delta (code : String) : Nat :=
  let kwSum :=
    (["if", "for", "while", "switch", "case", "catch", "return"].map
      fun kw => countWordCI kw.data code.data).sum
  if Py.containsSub code "fibonacci" && Py.countSub code "fibonacci(" > 1
  then kwSum + 5 else kwSum

/-- `LinterAgent._analyze_javascript`. -/
def analyze_javascript (code : String) : AnalysisCore :=
  let lines := Py.splitlines code
  let stepped := lines.enum.foldl
    (fun (acc : List RawIssue × Nat × List RawFunction) p =>
      let i := p.1 + 1
      let ls := Py.strip p.2
      let (iss, d) := check_javascript_patterns ls i
      let fns := (findFunctionNames ls.data.length ls.data).map
        fun n => (⟨n, i, i + 5, 1, []⟩ : RawFunction)
      (acc.1 ++ iss, acc.2.1 + d, acc.2.2 ++ fns))
    ([], 0, [])
  let issues := stepped.1
  let complexity := 1 + stepped.2.1 + calculate_complexity_delta code
  { issues := issues,
    metrics := { complexity := complexity,
                 maintainability := max 1 (10 - issues.length),
                 lines_of_code := lines.length },
    functions := stepped.2.2 }

/-- `LinterAgent._analyze_typescript`: the JavaScript analysis plus the
two TypeScript checks appended per line (metrics are not recomputed). -/
def analyze_typescript (code : String) : AnalysisCore :=
  let base := analyze_javascript code
  let extra := (Py.splitlines code).enum.foldl
    (fun (acc : List RawIssue) p =>
      let i := p.1 + 1
      let ls := Py.strip p.2
      let acc := if Py.containsSub ls ": any" then
          acc ++ [⟨"warning", "Avoid using any type", i,
                   "Use specific types for better type safety"⟩]
        else acc
      if Py.containsSub ls "@ts-ignore" then
        acc ++ [⟨"warning", "Avoid @ts-ignore comments", i,
                 "Fix the underlying TypeScript error instead"⟩]
      else acc)
    []
  { base with issues := base.issues ++ extra }

/-- The scan behind `re.finditer(r'(public|private|protected).*?(\w+)\s*\(', line)`
once a keyword has matched: the lazy `.*?` together with the greedy `\w+`
selects the first maximal word run that is followed by optional whitespace
and `(`; returns the captured name and the tail after the `(`. -/
def javaNameScan : Nat → List Char → Option (String × List Char)
  | 0, _ => none
  | _, [] => none
  | fuel + 1, l@(c :: t) =>
    if Py.isWordChar c then
      let run := l.takeWhile Py.isWordChar
      let after := (l.drop run.length).dropWhile Py.isSpace
      match after with
      | '(' :: rest => some (⟨run⟩, rest)
      | _ => javaNameScan fuel (l.drop run.length)
    else javaNameScan fuel t

/-- All captured method names of the Java method regex on one line,
leftmost first, resuming after each match. -/
def javaMethodNames : Nat → List Char → List String
  | 0, _ => []
  | _, [] => []
  | fuel + 1, l@(_ :: t) =>
    let kwLen : Option Nat :=
      if "public".data.isPrefixOf l then some 6
      else if "private".data.isPrefixOf l then some 7
      else if "protected".data.isPrefixOf l then some 9
      else none
    match kwLen with
    | some k =>
      match javaNameScan l.length (l.drop k) with
      | some (name, rest) => name :: javaMethodNames fuel rest
      | none => javaMethodNames fuel t
    | none => javaMethodNames fuel t

/-- `LinterAgent._analyze_java`. -/
def analyze_java (code : String) : AnalysisCore :=
  let lines := Py.splitlines code
  let stepped := lines.enum.foldl
    (fun (acc : List RawIssue × List RawFunction) p =>
      let i := p.1 + 1
      let ls := Py.strip p.2
      let iss := if Py.containsSub ls "System.out.print" then
          acc.1 ++ [⟨"info", "System.out.print statement found", i,
                     "Use logging framework instead of System.out.print"⟩]
        else acc.1
      let fns := acc.2 ++
        (((javaMethodNames ls.data.length ls.data).filter
            fun n => n ≠ "class" && n ≠ "interface" && n ≠ "enum").map
          fun n => (⟨n, i, i + 5, 1, []⟩ : RawFunction))
      (iss, fns))
    ([], [])
  { issues := stepped.1,
    metrics := { complexity := 1, maintainability := 10,
                 lines_of_code := lines.length },
    functions := stepped.2 }

/-- `LinterAgent._generic_analysis`: line-length and TODO/FIXME/HACK
checks on the raw (unstripped) lines. -/
def generic_analysis (code : String) : AnalysisCore :=
  let lines := Py.splitlines code
  let issues := lines.enum.foldl
    (fun (acc : List RawIssue) p =>
      let i := p.1 + 1
      let acc := if p.2.data.length > 120 then
          acc ++ [⟨"info", "Line too long", i,
                   "Keep lines under 120 characters for better readability"⟩]
        else acc
      let low := Py.lower p.2
      if Py.containsSub low "todo" || Py.containsSub low "fixme"
          || Py.containsSub low "hack" then
        acc ++ [⟨"info", "TODO/FIXME comment found", i,
                 "Address TODO/FIXME comments before production"⟩]
      else acc)
    []
  { issues := issues,
    metrics := { complexity := 1, maintainability := 8,
                 lines_of_code := lines.length },
    functions := [] }

/-- What `ast.parse` plus the `ast.walk` loop of `_analyze_python`
extracts: the `FunctionDef` records (walk order) and the counts of
`If`/`For`/`While` and `Try` nodes.  Python's parser itself is a standard
library external, so it enters the model as a parameter of this shape. -/
structure PyAstInfo where
  functions : List RawFunction
  branchCount : Nat
  tryCount : Nat
deriving DecidableEq, Repr

/-- The outcome of `ast.parse`: a parsed summary or a `SyntaxError`
carrying `str(e)` and `e.lineno`. -/
abbrev PyParser := String → Except (String × Nat) PyAstInfo

/-- `LinterAgent._check_python_patterns`: the issues it appends. -/
def check_python_patterns (code : String) : List RawIssue :=
  (Py.splitlines code).enum.foldl
    (fun (acc : List RawIssue) p =>
      let i := p.1 + 1
      let ls := Py.strip p.2
      let acc := if scanLitSpacesChar "print".data '(' ls.data then
          acc ++ [⟨"info", "Print statement found", i,
                   "Use logging instead of print for production code"⟩]
        else acc
      if Py.containsSub ls "import *" then
        acc ++ [⟨"warning", "Avoid wildcard imports", i,
                 "Import specific functions/classes instead"⟩]
      else acc)
    []

/-- `LinterAgent._analyze_python`, over a parser `pyAst`. -/
def analyze_python (pyAst : PyParser) (code : String) : AnalysisCore :=
  let locCount := (Py.splitlines code).length
  match pyAst code with
  | .ok info =>
    { issues := check_python_patterns code,
      metrics := { complexity := 1 + info.branchCount + info.tryCount,
                   maintainability := 10, lines_of_code := locCount },
      functions := info.functions }
  | .error (msg, lineno) =>
    { issues := ⟨"error", "Syntax error: " ++ msg, lineno,
                 "Fix syntax error to enable full analysis"⟩ ::
        check_python_patterns code,
      metrics := { complexity := 1, maintainability := 10,
                   lines_of_code := locCount },
      functions := [] }

/-- `re.search(r'for.*in.*length', code)`: since `.` does not match a
newline, the match lives inside one `\n`-delimited segment, and a leftmost
sequential scan for the three literals is complete. -/
def forInLength (code : String) : Bool :=
  (Py.splitNl code.data).any fun seg =>
    match Py.afterSub? seg "for".data with
    | none => false
    | some r1 =>
      match Py.afterSub? r1 "in".data with
      | none => false
      | some r2 => (Py.afterSub? r2 "length".data).isSome

/-- `LinterAgent._ai_analysis`. -/
def ai_analysis (code : String) : AIInsights :=
  let perf1 := if Py.containsSub code "fibonacci" && Py.containsSub code "fibonacci(" then
      ["Consider optimizing recursive calls with memoization for exponential performance improvement"]
    else []
  let smells := if (Py.splitlines code).length > 50 then
      ["Function or file appears to be quite large - consider breaking into smaller, focused components"]
    else []
  let perf2 := if forInLength code then
      ["Consider caching array length in loop for minor performance improvement"]
    else []
  { semantic_issues := [], performance_suggestions := perf1 ++ perf2,
    security_concerns := [], code_smells := smells }

/-- The `language_parsers` dispatch of `LinterAgent.analyze` (generic
fallback for unregistered languages). -/
def runParser (pyAst : PyParser) (language : String) (cleaned : String) :
    AnalysisCore :=
  if language = "javascript" then analyze_javascript cleaned
  else if language = "typescript" then analyze_typescript cleaned
  else if language = "python" then analyze_python pyAst cleaned
  else if language = "java" then analyze_java cleaned
  else generic_analysis cleaned

/-- `BaseAgent._postprocess_results` for the linter: the analyzer output
plus the agent metadata (`timestamp` is the postprocessing wall clock,
`performance` the stats' `last_performance`). -/
def postprocess_results (st : AgentState) (core : AnalysisCore)
    (ai : AIInsights) (now : Int) : LinterResult :=
  { issues := core.issues, metrics := core.metrics,
    functions := core.functions, ai_insights := ai,
    agent := "LinterAgent", model := "microsoft/codebert-base",
    timestamp := now, performance := st.last_performance }

/-- `LinterAgent.analyze(code, language)` run between wall-clock times
`start_t` and `end_t`: returns the result dict and the successor agent
state.  Blank input short-circuits to an empty well-formed result (note
the source then leaves `status = 'running'` and skips performance
tracking); otherwise the code is preprocessed, dispatched, enriched with
AI insights, and postprocessed after tracking. -/
def analyze (pyAst : PyParser) (st : AgentState) (code language : String)
    (start_t end_t : Int) : LinterResult × AgentState :=
  let st := { st with status := "running", last_run := some start_t }
  if Py.blank code then
    (postprocess_results st
      ⟨[], { complexity := 0, maintainability := 10, lines_of_code := 0 }, []⟩
      ⟨[], [], [], []⟩ end_t, st)
  else
    let cleaned := BaseAgent.preprocess_code code
    let core := runParser pyAst language cleaned
    let ai := ai_analysis cleaned
    let st := { st with status := "ready" }
    let st := BaseAgent.track_performance st start_t end_t
    (postprocess_results st core ai end_t, st)

end LinterAgent

namespace AgentPool

open BaseAgent

/-- The pool fields `get_linter_agent` touches. -/
structure PoolState where
  linter_agents : List AgentState
  initializedFlag : Bool
deriving DecidableEq, Repr

/-- `AgentPool.__init__`. -/
def initPool : PoolState := { linter_agents := [], initializedFlag := false }

/-- `AgentPool.get_linter_agent`, parameterized by the `_load_model`
outcome of a lazily created agent and instrumented with the number of
`initialize()` calls made during this acquire: on an empty pool the source
creates one agent, calls `initialize()` exactly once — discarding its
boolean result — appends the agent, and returns it; otherwise it returns
the first pooled agent with no initialization at all. -/
def get_linter_agent (loadOk : Bool) (p : PoolState) :
    AgentState × PoolState × Nat :=
  match p.linter_agents with
  | [] =>
    let (a, _ok) := initAgent loadOk initAgentState
    (a, { p with linter_agents := [a] }, 1)
  | a :: _ => (a, p, 0)

end AgentPool

namespace SocketHandlers

/-- The socket events `handle_analyze_code` can emit, in emission order. -/
inductive Event where
  | error (message : String)
  | progress (progress : Nat) (message : String)
  | analysisComplete (r : ProcessedAnalysis)
deriving DecidableEq, Repr

/-- The payload dict of an `analyze_code` message (`data.get('code', '')`,
`data.get('language', 'javascript')`). -/
structure HandlerData where
  code : Option String
  language : Option String
deriving DecidableEq, Repr

/-- `AppConfig.MAX_CONTENT_LENGTH` (16 MB). -/
def MAX_CONTENT_LENGTH : Nat := 16 * 1024 * 1024

/-- `handle_analyze_code` over the code-service state and the pool's
linter agent state (`data = none` models a missing/non-dict payload):
returns the emitted events in order and the successor states. -/
def handle_analyze_code (pyAst : LinterAgent.PyParser)
    (cs : CodeService.State) (ag : BaseAgent.AgentState)
    (data : Option HandlerData) (now : Int) :
    List Event × CodeService.State × BaseAgent.AgentState :=
  match data with
  | none => ([.error "Invalid data format"], cs, ag)
  | some d =>
    let code := Py.strip (d.code.getD "")
    let language := Py.lower (d.language.getD "javascript")
    if code = "" then
      ([.error "No code provided for analysis"], cs, ag)
    else if code.data.length > MAX_CONTENT_LENGTH then
      ([.error "Code exceeds maximum size limit"], cs, ag)
    else
      match CodeService.get_cached_analysis cs code now with
      | (some cached, cs') => ([.analysisComplete cached], cs', ag)
      | (none, cs') =>
        let ran := LinterAgent.analyze pyAst ag code language now now
        let processed := CodeService.process_analysis cs' ran.1 code language now
        ([.progress 25 "Initializing analysis...",
          .progress 50 "Running analysis...",
          .progress 75 "Processing results...",
          .progress 100 "Analysis complete",
          .analysisComplete processed.1], processed.2, ran.2)

end SocketHandlers

namespace CodeService

/-- Structural invariant of a `CodeService` instance: the three dicts hold
exactly the same keys (every operation inserts into or removes from all
three together), without duplicates. -/
def WF (s : State) : Prop :=
  PyDict.keys s.cache_timestamps = PyDict.keys s.analysis_cache ∧
  PyDict.keys s.cache_access_count = PyDict.keys s.analysis_cache ∧
  (PyDict.keys s.analysis_cache).Nodup

instance (s : State) : Decidable (WF s) := by
  unfold WF; infer_instance

/-- The `sorted_items` list of `_cleanup_lru_cache`: the access-count dict
stably sorted by count ascending. -/
def evictionOrder (s : State) : List (String × Nat) :=
  StableSort.sortStable (fun a b => a.2 ≤ b.2) s.cache_access_count

/-- The `items_to_remove` count of `_cleanup_lru_cache`. -/
def evictionCount (s : State) : Nat := max 1 ((evictionOrder s).length / 4)

end CodeService

/-- The line-level transformation claimed for the shared preprocessing:
remove trailing whitespace from each line; with fewer than 100 input lines
keep interior blank lines and strip blank lines from both ends; with 100
or more lines drop every blank line. -/
def preprocessClaimSpec (code : String) : String :=
  if (Py.splitlines code).length < 100 then
    Py.joinLines
      (((((Py.splitlines code).map Py.rstrip).dropWhile
        Py.blank).reverse.dropWhile Py.blank).reverse)
  else
    Py.joinLines (((Py.splitlines code).map Py.rstrip).filter fun l => !Py.blank l)

namespace Demo

/-- A parser stub used to instantiate the abstract `ast.parse` parameter
in closed statements whose control flow never reaches the Python branch. -/
def pyAstStub : LinterAgent.PyParser := fun _ => Except.error ("unused", 1)

/-- A minimal linter-result dict used as the analysis payload of concrete
cache scenarios. -/
def linterResult : LinterResult :=
  { issues := [], metrics := { complexity := 1, maintainability := 10, lines_of_code := 0 },
    functions := [], ai_insights := ⟨[], [], [], []⟩,
    agent := "LinterAgent", model := "microsoft/codebert-base",
    timestamp := 0, performance := 0 }

/-- A minimal processed-analysis dict for concrete cache states. -/
def processed : ProcessedAnalysis :=
  { issues := [], metrics := CodeService.format_metrics ⟨1, 10, 0⟩,
    functions := [], ai_insights := ⟨[], [], [], []⟩,
    code_hash := "h", language := "javascript", timestamp := 0,
    processing_time := 0 }

/-- A `CodeService` state whose `_max_cache_size` attribute is 3, matching
the claim's capacity-3 eviction scenario. -/
def cap3 : CodeService.State :=
  { analysis_cache := [], cache_timestamps := [], cache_timeout := 3600,
    max_cache_size := 3, cache_access_count := [] }

/-- The claim's access history at capacity 3: insert A at t=0, hit A at
t=1 and t=2, insert B at t=3, insert C at t=4, then insert D at t=5. -/
def c1_s1 : CodeService.State :=
  (CodeService.process_analysis cap3 linterResult "A" "javascript" 0).2

def c1_s2 : CodeService.State :=
  (CodeService.get_cached_analysis c1_s1 "A" 1).2

def c1_s3 : CodeService.State :=
  (CodeService.get_cached_analysis c1_s2 "A" 2).2

def c1_s4 : CodeService.State :=
  (CodeService.process_analysis c1_s3 linterResult "B" "javascript" 3).2

def c1_s5 : CodeService.State :=
  (CodeService.process_analysis c1_s4 linterResult "C" "javascript" 4).2

def c1_s6 : CodeService.State :=
  (CodeService.process_analysis c1_s5 linterResult "D" "javascript" 5).2

/-- A one-entry cache (key `md5("x")`, created at t = 0, TTL 60s). -/
def ttlState : CodeService.State :=
  { analysis_cache := [(CodeService.generate_code_hash "x", processed)],
    cache_timestamps := [(CodeService.generate_code_hash "x", 0)],
    cache_timeout := 60, max_cache_size := 1000,
    cache_access_count := [(CodeService.generate_code_hash "x", 1)] }

/-- A test case whose identifying fields (`name`, `type`) are fixed. -/
def tcase : RawTestCase :=
  { name := some "T", description := none, kind := some "unit", code := none,
    expected_result := none, test_data := none, framework := none }

/-- A two-entry cache whose entry `a` was read more often than `b`. -/
def lruState : CodeService.State :=
  { analysis_cache := [("a", processed), ("b", processed)],
    cache_timestamps := [("a", 0), ("b", 0)], cache_timeout := 3600,
    max_cache_size := 1000,
    cache_access_count := [("a", 2), ("b", 1)] }

end Demo


namespace PyDict

@[simp] theorem keys_nil : keys ([] : List (String × V)) = [] := rfl

@[simp] theorem keys_cons (k : String) (v : V) (t : List (String × V)) :
    keys ((k, v) :: t) = k :: keys t := rfl

theorem keys_length (d : List (String × V)) : (keys d).length = d.length :=
  List.length_map _ _

theorem get?_isSome_iff_mem {d : List (String × V)} {k : String} :
    (get? d k).isSome = true ↔ k ∈ keys d := by
  induction d with
  | nil => simp [get?]
  | cons p t ih =>
    obtain ⟨k', v⟩ := p
    by_cases h : k' = k
    · subst h; simp [get?]
    · rw [keys_cons, List.mem_cons]
      constructor
      · intro hs
        exact Or.inr (ih.mp (by simpa [get?, h] using hs))
      · intro hm
        rcases hm with hm | hm
        · exact absurd hm.symm h
        · simpa [get?, h] using ih.mpr hm

theorem keys_insert (d : List (String × V)) (k : String) (v : V) :
    keys (insert d k v) = if k ∈ keys d then keys d else keys d ++ [k] := by
  induction d with
  | nil => simp [insert]
  | cons p t ih =>
    obtain ⟨k', v'⟩ := p
    by_cases h : k' = k
    · subst h; simp [insert]
    · have hstep : insert ((k', v') :: t) k v = (k', v') :: insert t k v := by
        simp [insert, h]
      rw [hstep, keys_cons, ih, keys_cons]
      by_cases hm : k ∈ keys t
      · rw [if_pos hm, if_pos (List.mem_cons_of_mem _ hm)]
      · rw [if_neg hm, if_neg (by simp [hm, Ne.symm h]), List.cons_append]

theorem keys_pop (d : List (String × V)) (k : String) :
    keys (pop d k) = (keys d).erase k := by
  induction d with
  | nil => simp [pop]
  | cons p t ih =>
    obtain ⟨k', v'⟩ := p
    by_cases h : k' = k
    · subst h; simp [pop, List.erase_cons_head]
    · have hstep : pop ((k', v') :: t) k = (k', v') :: pop t k := by
        simp [pop, h]
      rw [hstep, keys_cons, ih, keys_cons,
        List.erase_cons_tail (by simpa using h)]

theorem length_insert (d : List (String × V)) (k : String) (v : V) :
    (insert d k v).length = if k ∈ keys d then d.length else d.length + 1 := by
  have h := congrArg List.length (keys_insert d k v)
  rw [keys_length] at h
  by_cases hm : k ∈ keys d
  · rw [if_pos hm] at h ⊢; rw [h, keys_length]
  · rw [if_neg hm] at h ⊢
    rw [h, List.length_append, keys_length, List.length_singleton]

theorem length_pop_of_mem {d : List (String × V)} {k : String}
    (h : k ∈ keys d) : (pop d k).length + 1 = d.length := by
  have hk := congrArg List.length (keys_pop d k)
  rw [keys_length, List.length_erase_of_mem h, keys_length] at hk
  have hpos : 0 < d.length := by
    rw [← keys_length]
    exact List.length_pos.mpr (List.ne_nil_of_mem h)
  omega

theorem length_pop_of_not_mem {d : List (String × V)} {k : String}
    (h : ¬k ∈ keys d) : (pop d k).length = d.length := by
  have hk := congrArg List.length (keys_pop d k)
  rw [keys_length, List.erase_of_not_mem h, keys_length] at hk
  exact hk

theorem get?_insert_self (d : List (String × V)) (k : String) (v : V) :
    get? (insert d k v) k = some v := by
  induction d with
  | nil => simp [insert, get?]
  | cons p t ih =>
    obtain ⟨k', v'⟩ := p
    by_cases h : k' = k <;> simp [insert, get?, h, ih]

theorem get?_insert_ne (d : List (String × V)) (k k' : String) (v : V)
    (h : k ≠ k') : get? (insert d k v) k' = get? d k' := by
  induction d with
  | nil => simp [insert, get?, h]
  | cons p t ih =>
    obtain ⟨k₀, v₀⟩ := p
    by_cases h0 : k₀ = k
    · subst h0; simp [insert, get?, h]
    · simp [insert, get?, h0, ih]

theorem get?_pop_self {d : List (String × V)} {k : String}
    (hnd : (keys d).Nodup) : get? (pop d k) k = none := by
  induction d with
  | nil => simp [pop, get?]
  | cons p t ih =>
    obtain ⟨k', v'⟩ := p
    rw [keys_cons, List.nodup_cons] at hnd
    by_cases h : k' = k
    · subst h
      rw [show pop ((k', v') :: t) k' = t by simp [pop]]
      rcases hget : get? t k' with _ | w
      · rfl
      · exact absurd (get?_isSome_iff_mem.mp (by simp [hget])) hnd.1
    · have hstep : pop ((k', v') :: t) k = (k', v') :: pop t k := by
        simp [pop, h]
      rw [hstep]
      simp [get?, h, ih hnd.2]

theorem get?_pop_ne (d : List (String × V)) (k k' : String) (h : k ≠ k') :
    get? (pop d k) k' = get? d k' := by
  induction d with
  | nil => simp [pop]
  | cons p t ih =>
    obtain ⟨k₀, v₀⟩ := p
    by_cases h0 : k₀ = k
    · subst h0
      rw [show pop ((k₀, v₀) :: t) k₀ = t by simp [pop]]
      rw [show get? ((k₀, v₀) :: t) k' = get? t k' by simp [get?, h]]
    · have hstep : pop ((k₀, v₀) :: t) k = (k₀, v₀) :: pop t k := by
        simp [pop, h0]
      rw [hstep]
      by_cases h1 : k₀ = k'
      · subst h1; simp [get?]
      · simp [get?, h1, ih]

theorem nodup_keys_insert {d : List (String × V)} (k : String) (v : V)
    (h : (keys d).Nodup) : (keys (insert d k v)).Nodup := by
  rw [keys_insert]
  by_cases hm : k ∈ keys d
  · rwa [if_pos hm]
  · rw [if_neg hm]
    refine List.Nodup.append h (List.nodup_singleton k) ?_
    intro a ha hb
    rw [List.mem_singleton] at hb
    exact hm (hb ▸ ha)

theorem nodup_keys_pop {d : List (String × V)} (k : String)
    (h : (keys d).Nodup) : (keys (pop d k)).Nodup := by
  rw [keys_pop]; exact h.erase k

end PyDict

namespace StableSort

theorem perm_ins (le : α → α → Bool) (x : α) (l : List α) :
    List.Perm (ins le x l) (x :: l) := by
  induction l with
  | nil => simp [ins]
  | cons y ys ih =>
    by_cases h : le x y
    · simp [ins, h]
    · simp only [ins, if_neg h]
      exact (ih.cons y).trans (List.Perm.swap x y ys)

/-- The sort permutes its input. -/
theorem perm_sortStable (le : α → α → Bool) (l : List α) :
    List.Perm (sortStable le l) l := by
  induction l with
  | nil => simp [sortStable]
  | cons x xs ih =>
    exact (perm_ins le x (sortStable le xs)).trans (ih.cons x)

theorem pairwise_ins (le : α → α → Bool)
    (htot : ∀ a b, le a b = true ∨ le b a = true)
    (htrans : ∀ a b c, le a b = true → le b c = true → le a c = true)
    (x : α) (l : List α) (h : l.Pairwise (fun a b => le a b = true)) :
    (ins le x l).Pairwise (fun a b => le a b = true) := by
  induction l with
  | nil => simp [ins]
  | cons y ys ih =>
    rw [List.pairwise_cons] at h
    by_cases hxy : le x y
    · rw [ins, if_pos hxy, List.pairwise_cons]
      refine ⟨?_, List.pairwise_cons.mpr h⟩
      intro b hb
      rcases List.mem_cons.mp hb with rfl | hb
      · exact hxy
      · exact htrans _ _ _ hxy (h.1 b hb)
    · rw [ins, if_neg hxy, List.pairwise_cons]
      have hyx : le y x = true := by
        rcases htot x y with h1 | h1
        · exact absurd h1 hxy
        · exact h1
      refine ⟨?_, ih h.2⟩
      intro b hb
      rcases List.mem_cons.mp ((perm_ins le x ys).mem_iff.mp hb) with rfl | hb2
      · exact hyx
      · exact h.1 b hb2

/-- The sort output is ordered by `le` (for a total transitive `le`). -/
theorem pairwise_sortStable (le : α → α → Bool)
    (htot : ∀ a b, le a b = true ∨ le b a = true)
    (htrans : ∀ a b c, le a b = true → le b c = true → le a c = true)
    (l : List α) :
    (sortStable le l).Pairwise (fun a b => le a b = true) := by
  induction l with
  | nil => simp [sortStable]
  | cons x xs ih => exact pairwise_ins le htot htrans x (sortStable le xs) ih

theorem filter_ins_pos (le : α → α → Bool) (p : α → Bool) (x : α)
    (l : List α) (hx : p x = true)
    (h : ∀ y ∈ l, p y = true → le x y = true) :
    (ins le x l).filter p = x :: l.filter p := by
  induction l with
  | nil => simp [ins, hx]
  | cons y ys ih =>
    by_cases hxy : le x y
    · rw [ins, if_pos hxy]
      simp [List.filter_cons, hx]
    · rw [ins, if_neg hxy]
      have hpy : p y = false := by
        rcases hp : p y with _ | _
        · rfl
        · exact absurd (h y (List.mem_cons_self y ys) hp) hxy
      rw [List.filter_cons, if_neg (by simp [hpy]), List.filter_cons,
        if_neg (by simp [hpy])]
      exact ih fun z hz hpz => h z (List.mem_cons_of_mem y hz) hpz

theorem filter_ins_neg (le : α → α → Bool) (p : α → Bool) (x : α)
    (l : List α) (hx : p x = false) :
    (ins le x l).filter p = l.filter p := by
  induction l with
  | nil => simp [ins, hx]
  | cons y ys ih =>
    by_cases hxy : le x y
    · rw [ins, if_pos hxy, List.filter_cons, if_neg (by simp [hx])]
    · rw [ins, if_neg hxy, List.filter_cons, List.filter_cons]
      by_cases hpy : p y <;> simp [hpy, ih]

/-- Stability: elements of one `le`-tie class keep their original relative
order.  `p` selects a class on which `le` always holds in both directions. -/
theorem filter_sortStable (le : α → α → Bool) (p : α → Bool)
    (hcls : ∀ a b, p a = true → p b = true → le a b = true)
    (l : List α) : (sortStable le l).filter p = l.filter p := by
  induction l with
  | nil => simp [sortStable]
  | cons x xs ih =>
    rw [sortStable]
    by_cases hx : p x
    · rw [filter_ins_pos le p x _ hx fun y _ hpy => hcls x y hx hpy,
        List.filter_cons, if_pos (by simp [hx]), ih]
    · rw [filter_ins_neg le p x _ (by simpa using hx), List.filter_cons,
        if_neg (by simpa using hx), ih]

/-- Sorting an already-sorted list is the identity (re-ranking an
unchanged list never reorders anything). -/
theorem sortStable_of_pairwise (le : α → α → Bool) (l : List α)
    (h : l.Pairwise (fun a b => le a b = true)) : sortStable le l = l := by
  induction l with
  | nil => rfl
  | cons x xs ih =>
    rw [List.pairwise_cons] at h
    rw [sortStable, ih h.2]
    cases xs with
    | nil => rfl
    | cons y ys => rw [ins, if_pos (h.1 y (List.mem_cons_self y ys))]

end StableSort

namespace Py

theorem dropWhile_all {α : Type} (p : α → Bool) (l : List α) :
    (l.dropWhile p).all p = true ↔ l.all p = true := by
  induction l with
  | nil => simp
  | cons c t ih =>
    by_cases hc : p c
    · simp [List.dropWhile_cons, hc, ih]
    · simp [List.dropWhile_cons, hc]

theorem rstripL_all_isSpace (l : List Char) :
    (rstripL l).all isSpace = true ↔ l.all isSpace = true := by
  unfold rstripL
  rw [List.all_reverse, dropWhile_all, List.all_reverse]

theorem lstripL_all_isSpace (l : List Char) :
    (lstripL l).all isSpace = true ↔ l.all isSpace = true := by
  unfold lstripL
  rw [dropWhile_all]

theorem stripL_eq_nil_iff (l : List Char) :
    stripL l = [] ↔ l.all isSpace = true := by
  unfold stripL rstripL
  constructor
  · intro h
    have h' : (lstripL l).reverse.dropWhile isSpace = [] := by
      have := congrArg List.reverse h
      simpa using this
    rw [List.dropWhile_eq_nil_iff] at h'
    have : (lstripL l).all isSpace = true := by
      rw [List.all_eq_true]
      intro x hx
      exact h' x (List.mem_reverse.mpr hx)
    exact (lstripL_all_isSpace l).mp this
  · intro h
    have h1 : (lstripL l).all isSpace = true := (lstripL_all_isSpace l).mpr h
    have h2 : (lstripL l).reverse.dropWhile isSpace = [] := by
      rw [List.dropWhile_eq_nil_iff]
      intro x hx
      rw [List.all_eq_true] at h1
      exact h1 x (List.mem_reverse.mp hx)
    rw [h2]
    rfl

theorem blank_iff_all_isSpace (s : String) :
    blank s = true ↔ s.data.all isSpace = true := by
  unfold blank strip
  rw [decide_eq_true_eq, String.ext_iff]
  show stripL s.data = "".data ↔ _
  rw [show ("".data : List Char) = [] from rfl]
  exact stripL_eq_nil_iff s.data

theorem blank_rstrip (s : String) : blank (rstrip s) = blank s := by
  rcases hb : blank s with _ | _
  · rcases hb' : blank (rstrip s) with _ | _
    · rfl
    · exfalso
      rw [blank_iff_all_isSpace] at hb'
      have : s.data.all isSpace = true := (rstripL_all_isSpace s.data).mp hb'
      rw [← blank_iff_all_isSpace] at this
      rw [this] at hb
      cases hb
  · rw [blank_iff_all_isSpace] at hb ⊢
    exact (rstripL_all_isSpace s.data).mpr hb

theorem splitNl_blank {l : List Char} (h : l.all isSpace = true) :
    ∀ seg ∈ splitNl l, seg.all isSpace = true := by
  induction l with
  | nil =>
    intro seg hs
    simp only [splitNl, List.mem_singleton] at hs
    subst hs; rfl
  | cons c t ih =>
    intro seg hs
    rw [List.all_cons, Bool.and_eq_true] at h
    have iht := ih h.2
    simp only [splitNl] at hs
    rcases hsp : splitNl t with _ | ⟨sh, sr⟩
    · rw [hsp] at hs iht
      dsimp only at hs
      simp only [List.mem_singleton] at hs
      subst hs; rfl
    · rw [hsp] at hs iht
      dsimp only at hs
      by_cases hnl : c = '\n'
      · rw [if_pos hnl] at hs
        rcases List.mem_cons.mp hs with rfl | hs2
        · rfl
        · exact iht seg hs2
      · rw [if_neg hnl] at hs
        rcases List.mem_cons.mp hs with rfl | hs2
        · rw [List.all_cons, h.1]
          have := iht sh (List.mem_cons_self _ _)
          simpa using this
        · exact iht seg (List.mem_cons_of_mem _ hs2)

theorem splitlines_blank {s : String} (h : blank s = true) :
    ∀ x ∈ splitlines s, blank x = true := by
  intro x hx
  unfold splitlines at hx
  by_cases hnil : s.data = []
  · rw [if_pos hnil] at hx
    cases hx
  · rw [if_neg hnil] at hx
    have hmem : x ∈ (splitNl s.data).map fun l => (⟨l⟩ : String) := by
      by_cases hlast : ((splitNl s.data).map fun l => (⟨l⟩ : String)).getLast? = some ""
      · rw [if_pos hlast] at hx
        exact (List.dropLast_sublist _).mem hx
      · rw [if_neg hlast] at hx
        exact hx
    rw [List.mem_map] at hmem
    obtain ⟨seg, hseg, rfl⟩ := hmem
    rw [blank_iff_all_isSpace] at h ⊢
    exact splitNl_blank h seg hseg

theorem dropWhile_eq_self_of_not {α : Type} (p : α → Bool) (l : List α)
    (h : ∀ x ∈ l, p x = false) : l.dropWhile p = l := by
  cases l with
  | nil => rfl
  | cons c t =>
    rw [List.dropWhile_cons, h c (List.mem_cons_self c t)]
    simp

end Py

namespace CodeService

theorem WF_initState (t : Int) : WF (initState t) := by
  refine ⟨rfl, rfl, ?_⟩
  simp [initState, PyDict.keys]

theorem keys_remove_from_cache (s : State) (h : String) :
    PyDict.keys (remove_from_cache s h).analysis_cache =
      (PyDict.keys s.analysis_cache).erase h := by
  simp [remove_from_cache, PyDict.keys_pop]

theorem WF_remove_from_cache {s : State} (hwf : WF s) (h : String) :
    WF (remove_from_cache s h) := by
  obtain ⟨h1, h2, h3⟩ := hwf
  refine ⟨?_, ?_, ?_⟩
  · simp [remove_from_cache, PyDict.keys_pop, h1]
  · simp [remove_from_cache, PyDict.keys_pop, h2]
  · simp only [remove_from_cache]
    rw [PyDict.keys_pop]
    exact h3.erase h

theorem length_remove_le (s : State) (h : String) :
    (remove_from_cache s h).analysis_cache.length ≤ s.analysis_cache.length := by
  by_cases hm : h ∈ PyDict.keys s.analysis_cache
  · have := PyDict.length_pop_of_mem hm
    simp only [remove_from_cache]
    omega
  · have := PyDict.length_pop_of_not_mem hm
    simp only [remove_from_cache]
    omega

theorem length_remove_of_mem {s : State} {h : String}
    (hm : h ∈ PyDict.keys s.analysis_cache) :
    (remove_from_cache s h).analysis_cache.length + 1 =
      s.analysis_cache.length := by
  simpa [remove_from_cache] using PyDict.length_pop_of_mem hm

/-- Folding key removals (as done by `_cleanup_lru_cache` and
`clear_old_cache`) preserves the invariant. -/
theorem WF_foldl_remove {s : State} (hwf : WF s) (ks : List String) :
    WF (ks.foldl remove_from_cache s) := by
  induction ks generalizing s with
  | nil => exact hwf
  | cons k t ih => exact ih (WF_remove_from_cache hwf k)

theorem length_foldl_remove_le (ks : List String) (s : State) :
    (ks.foldl remove_from_cache s).analysis_cache.length ≤
      s.analysis_cache.length := by
  induction ks generalizing s with
  | nil => exact le_refl _
  | cons k t ih => exact le_trans (ih _) (length_remove_le s k)

theorem WF_cleanup_lru {s : State} (hwf : WF s) : WF (cleanup_lru_cache s) := by
  unfold cleanup_lru_cache
  by_cases he : s.cache_access_count.isEmpty
  · simpa [he] using hwf
  · simp only [he, Bool.false_eq_true, if_false]
    rw [← List.foldl_map (f := Prod.fst) (g := remove_from_cache)]
    exact WF_foldl_remove hwf _

theorem length_cleanup_le (s : State) :
    (cleanup_lru_cache s).analysis_cache.length ≤ s.analysis_cache.length := by
  unfold cleanup_lru_cache
  by_cases he : s.cache_access_count.isEmpty
  · simp [he]
  · simp only [he, Bool.false_eq_true, if_false]
    rw [← List.foldl_map (f := Prod.fst) (g := remove_from_cache)]
    exact length_foldl_remove_le _ s

theorem max_remove (s : State) (h : String) :
    (remove_from_cache s h).max_cache_size = s.max_cache_size := rfl

theorem max_foldl_remove (ks : List String) (s : State) :
    (ks.foldl remove_from_cache s).max_cache_size = s.max_cache_size := by
  induction ks generalizing s with
  | nil => rfl
  | cons k t ih => exact (ih _).trans rfl

theorem max_cleanup (s : State) :
    (cleanup_lru_cache s).max_cache_size = s.max_cache_size := by
  unfold cleanup_lru_cache
  by_cases he : s.cache_access_count.isEmpty
  · simp [he]
  · simp only [he, Bool.false_eq_true, if_false]
    rw [← List.foldl_map (f := Prod.fst) (g := remove_from_cache)]
    exact max_foldl_remove _ s

/-- When the cache is nonempty, `_cleanup_lru_cache` strictly shrinks it
(it removes at least one present key). -/
theorem length_cleanup_lt {s : State} (hwf : WF s)
    (hne : s.analysis_cache ≠ []) :
    (cleanup_lru_cache s).analysis_cache.length + 1 ≤
      s.analysis_cache.length := by
  have hkeys := hwf.2.1
  have hac_ne : s.cache_access_count ≠ [] := by
    intro hnil
    apply hne
    have : PyDict.keys s.analysis_cache = [] := by
      rw [← hkeys, hnil]; rfl
    simpa [PyDict.keys] using this
  unfold cleanup_lru_cache
  rw [if_neg (by simpa [List.isEmpty_iff] using hac_ne)]
  have hsp := StableSort.perm_sortStable
    (fun a b : String × Nat => decide (a.2 ≤ b.2)) s.cache_access_count
  have hslen : (StableSort.sortStable (fun a b : String × Nat => decide (a.2 ≤ b.2))
      s.cache_access_count).length = s.cache_access_count.length := hsp.length_eq
  set sorted := StableSort.sortStable (fun a b : String × Nat => decide (a.2 ≤ b.2))
    s.cache_access_count with hsorted
  have hk1 : 1 ≤ max 1 (sorted.length / 4) := le_max_left _ _
  have hsne : sorted ≠ [] := by
    intro hnil
    rw [hnil] at hslen
    exact hac_ne (List.eq_nil_of_length_eq_zero hslen.symm)
  obtain ⟨p, ps, hps⟩ : ∃ p ps, sorted.take (max 1 (sorted.length / 4)) = p :: ps := by
    cases htk : sorted.take (max 1 (sorted.length / 4)) with
    | nil =>
      exfalso
      have := congrArg List.length htk
      rw [List.length_take] at this
      have hlp : 0 < sorted.length := List.length_pos.mpr hsne
      simp only [List.length_nil] at this
      omega
    | cons p ps => exact ⟨p, ps, rfl⟩
  show (List.foldl (fun st q => remove_from_cache st q.1) s
    (List.take (max 1 (sorted.length / 4)) sorted)).analysis_cache.length + 1 ≤
      s.analysis_cache.length
  rw [hps]
  have hmem : p ∈ s.cache_access_count := by
    have : p ∈ sorted := by
      have : p ∈ sorted.take (max 1 (sorted.length / 4)) := by
        rw [hps]; exact List.mem_cons_self p ps
      exact List.mem_of_mem_take this
    exact hsp.mem_iff.mp this
  have hkmem : p.1 ∈ PyDict.keys s.analysis_cache := by
    rw [← hkeys]
    exact List.mem_map_of_mem Prod.fst hmem
  have hstep : ∀ (l : List (String × Nat)) (st : State),
      (l.foldl (fun st q => remove_from_cache st q.1) st).analysis_cache.length ≤
        st.analysis_cache.length := by
    intro l st
    rw [← List.foldl_map (f := Prod.fst) (g := remove_from_cache)]
    exact length_foldl_remove_le _ st
  calc (List.foldl (fun st q => remove_from_cache st q.1)
          (remove_from_cache s p.1) ps).analysis_cache.length + 1
      ≤ (remove_from_cache s p.1).analysis_cache.length + 1 := by
        have := hstep ps (remove_from_cache s p.1); omega
    _ = s.analysis_cache.length := length_remove_of_mem hkmem

theorem WF_cache_result {s : State} (hwf : WF s) (h : String)
    (r : ProcessedAnalysis) (now : Int) : WF (cache_result s h r now) := by
  unfold cache_result
  set s1 := if s.analysis_cache.length ≥ s.max_cache_size
    then cleanup_lru_cache s else s with hs1
  have hwf1 : WF s1 := by
    rw [hs1]
    by_cases hc : s.analysis_cache.length ≥ s.max_cache_size
    · rw [if_pos hc]; exact WF_cleanup_lru hwf
    · rw [if_neg hc]; exact hwf
  obtain ⟨h1, h2, h3⟩ := hwf1
  refine ⟨?_, ?_, ?_⟩
  · show PyDict.keys (PyDict.insert s1.cache_timestamps h now) =
      PyDict.keys (PyDict.insert s1.analysis_cache h r)
    rw [PyDict.keys_insert, PyDict.keys_insert, h1]
  · show PyDict.keys (PyDict.insert s1.cache_access_count h 1) =
      PyDict.keys (PyDict.insert s1.analysis_cache h r)
    rw [PyDict.keys_insert, PyDict.keys_insert, h2]
  · show (PyDict.keys (PyDict.insert s1.analysis_cache h r)).Nodup
    exact PyDict.nodup_keys_insert h r h3

/-- The capacity bound is inductive across `_cache_result`: a put on a
within-capacity cache leaves it within capacity. -/
theorem length_cache_result_le {s : State} (hwf : WF s)
    (hmax : 0 < s.max_cache_size)
    (hle : s.analysis_cache.length ≤ s.max_cache_size)
    (h : String) (r : ProcessedAnalysis) (now : Int) :
    (cache_result s h r now).analysis_cache.length ≤ s.max_cache_size := by
  unfold cache_result
  by_cases hc : s.analysis_cache.length ≥ s.max_cache_size
  · rw [if_pos hc]
    have hne : s.analysis_cache ≠ [] := by
      intro hnil
      rw [hnil] at hc
      simp only [List.length_nil] at hc
      omega
    have hlt := length_cleanup_lt hwf hne
    have hins := PyDict.length_insert (cleanup_lru_cache s).analysis_cache h r
    by_cases hm : h ∈ PyDict.keys (cleanup_lru_cache s).analysis_cache
    · rw [if_pos hm] at hins
      show (PyDict.insert (cleanup_lru_cache s).analysis_cache h r).length ≤ _
      omega
    · rw [if_neg hm] at hins
      show (PyDict.insert (cleanup_lru_cache s).analysis_cache h r).length ≤ _
      omega
  · rw [if_neg hc]
    have hins := PyDict.length_insert s.analysis_cache h r
    have hlt : s.analysis_cache.length < s.max_cache_size := by omega
    by_cases hm : h ∈ PyDict.keys s.analysis_cache
    · rw [if_pos hm] at hins
      show (PyDict.insert s.analysis_cache h r).length ≤ _
      omega
    · rw [if_neg hm] at hins
      show (PyDict.insert s.analysis_cache h r).length ≤ _
      omega

/-- `get_cached_analysis` preserves the invariant, never grows the cache,
and keeps the configuration. -/
theorem WF_get_cached_analysis {s : State} (hwf : WF s) (code : String)
    (now : Int) :
    WF (get_cached_analysis s code now).2 ∧
    (get_cached_analysis s code now).2.analysis_cache.length ≤
      s.analysis_cache.length ∧
    (get_cached_analysis s code now).2.max_cache_size = s.max_cache_size := by
  unfold get_cached_analysis
  cases hget : PyDict.get? s.analysis_cache (generate_code_hash code) with
  | none => exact ⟨hwf, le_refl _, rfl⟩
  | some v =>
    cases hts : PyDict.get? s.cache_timestamps (generate_code_hash code) with
    | none =>
      exact ⟨WF_remove_from_cache hwf _, length_remove_le s _, rfl⟩
    | some ts =>
      dsimp only
      by_cases hfresh : now - ts < s.cache_timeout
      · rw [if_pos hfresh]
        obtain ⟨h1, h2, h3⟩ := hwf
        have hmem : generate_code_hash code ∈ PyDict.keys s.cache_access_count := by
          rw [h2, ← PyDict.get?_isSome_iff_mem, hget]
          rfl
        refine ⟨⟨h1, ?_, h3⟩, le_refl _, rfl⟩
        show PyDict.keys (PyDict.insert s.cache_access_count _ _) = _
        rw [PyDict.keys_insert, if_pos hmem, h2]
      · rw [if_neg hfresh]
        exact ⟨WF_remove_from_cache hwf _, length_remove_le s _, rfl⟩

/-- `clear_old_cache` preserves the invariant and the capacity bound. -/
theorem WF_clear_old_cache {s : State} (hwf : WF s)
    (hle : s.analysis_cache.length ≤ s.max_cache_size) (now : Int) :
    WF (clear_old_cache s now) ∧
    (clear_old_cache s now).analysis_cache.length ≤ s.max_cache_size := by
  unfold clear_old_cache
  set ks := (s.cache_timestamps.filter
    fun p => decide (now - p.2 > s.cache_timeout)).map Prod.fst with hks
  have hwf1 : WF (ks.foldl remove_from_cache s) := WF_foldl_remove hwf ks
  have hlen1 : (ks.foldl remove_from_cache s).analysis_cache.length ≤
      s.analysis_cache.length := length_foldl_remove_le ks s
  have hmax1 : (ks.foldl remove_from_cache s).max_cache_size =
      s.max_cache_size := max_foldl_remove ks s
  by_cases hc : (ks.foldl remove_from_cache s).analysis_cache.length >
      (ks.foldl remove_from_cache s).max_cache_size
  · rw [if_pos hc]
    refine ⟨WF_cleanup_lru hwf1, ?_⟩
    have := length_cleanup_le (ks.foldl remove_from_cache s)
    omega
  · rw [if_neg hc]
    exact ⟨hwf1, by omega⟩

theorem WF_clear_cache (s : State) :
    WF (clear_cache s) ∧ (clear_cache s).analysis_cache.length = 0 := by
  exact ⟨⟨rfl, rfl, by simp [clear_cache, PyDict.keys]⟩, rfl⟩

/-- `process_analysis` preserves the invariant and the capacity bound. -/
theorem WF_process_analysis {s : State} (hwf : WF s)
    (hmax : 0 < s.max_cache_size)
    (hle : s.analysis_cache.length ≤ s.max_cache_size)
    (analysis : LinterResult) (code language : String) (now : Int) :
    WF (process_analysis s analysis code language now).2 ∧
    (process_analysis s analysis code language now).2.analysis_cache.length ≤
      s.max_cache_size := by
  unfold process_analysis
  obtain ⟨hwfg, hlng, hmaxg⟩ := WF_get_cached_analysis hwf code now
  cases hg : get_cached_analysis s code now with
  | mk r s' =>
    rw [hg] at hwfg hlng hmaxg
    cases r with
    | some cached =>
      dsimp only at hwfg hlng hmaxg ⊢
      exact ⟨hwfg, by omega⟩
    | none =>
      dsimp only at hwfg hlng hmaxg ⊢
      refine ⟨WF_cache_result hwfg _ _ _, ?_⟩
      have hb : ∀ r : ProcessedAnalysis,
          (cache_result s' (generate_code_hash code) r now).analysis_cache.length ≤
            s'.max_cache_size :=
        fun r => length_cache_result_le hwfg (by omega) (by omega) _ r now
      exact le_trans (hb _) (by omega)

end CodeService

theorem map_filter_comm {α β : Type} (f : α → β) (p : β → Bool) (l : List α) :
    (l.filter fun a => p (f a)).map f = (l.map f).filter p := by
  induction l with
  | nil => rfl
  | cons a t ih =>
    by_cases h : p (f a) <;> simp [List.filter_cons, h, ih]






/-- Claim C10: the preprocessing applied before every agent's analysis
rstrips each line, strips leading and trailing blank lines, preserves
interior blank lines exactly when the input has fewer than 100 lines and
removes them all otherwise, and maps blank-only input to the empty
string. -/
theorem c10_preprocess_policy (code : String) :
    BaseAgent.preprocess_code code = preprocessClaimSpec code := by
  unfold BaseAgent.preprocess_code preprocessClaimSpec
  by_cases hb : Py.blank code
  · rw [if_pos hb]
    have hall := Py.splitlines_blank hb
    by_cases hlen : (Py.splitlines code).length < 100
    · rw [if_pos hlen]
      have h1 : ((Py.splitlines code).map Py.rstrip).dropWhile Py.blank = [] := by
        rw [List.dropWhile_eq_nil_iff]
        intro x hx
        rw [List.mem_map] at hx
        obtain ⟨y, hy, rfl⟩ := hx
        rw [Py.blank_rstrip]
        exact hall y hy
      rw [h1]
      rfl
    · rw [if_neg hlen]
      have h1 : ((Py.splitlines code).map Py.rstrip).filter
          (fun l => !Py.blank l) = [] := by
        rw [List.filter_eq_nil_iff]
        intro x hx
        rw [List.mem_map] at hx
        obtain ⟨y, hy, rfl⟩ := hx
        simp [Py.blank_rstrip, hall y hy]
      rw [h1]
      rfl
  · rw [if_neg hb]
    dsimp only
    by_cases hlen : (Py.splitlines code).length < 100
    · rw [if_pos hlen]
      have hfil : (Py.splitlines code).filter
          (fun l => !Py.blank l || decide ((Py.splitlines code).length < 100)) =
            Py.splitlines code := by
        rw [List.filter_eq_self]
        intro a _
        simp [hlen]
      rw [hfil]
    · rw [if_neg hlen]
      have hfil : (Py.splitlines code).filter
          (fun l => !Py.blank l || decide ((Py.splitlines code).length < 100)) =
            (Py.splitlines code).filter fun l => !Py.blank (Py.rstrip l) := by
        apply List.filter_congr
        intro x _
        simp [hlen, Py.blank_rstrip]
      rw [hfil, map_filter_comm Py.rstrip (fun l => !Py.blank l)]
      have hnb : ∀ x ∈ ((Py.splitlines code).map Py.rstrip).filter
          (fun l => !Py.blank l), Py.blank x = false := by
        intro x hx
        have := List.of_mem_filter hx
        simpa using this
      rw [Py.dropWhile_eq_self_of_not _ _ hnb,
        Py.dropWhile_eq_self_of_not _ _
          (fun x hx => hnb x (List.mem_reverse.mp hx)),
        List.reverse_reverse]



theorem intPairLe_refl (p : Int × Int) : CodeService.intPairLe p p = true := by
  simp [CodeService.intPairLe]

theorem intPairLe_total (p q : Int × Int) :
    CodeService.intPairLe p q = true ∨ CodeService.intPairLe q p = true := by
  unfold CodeService.intPairLe
  rcases lt_trichotomy p.1 q.1 with h | h | h
  · left; simp [h]
  · rcases le_total p.2 q.2 with h2 | h2
    · left; simp [h, h2]
    · right; simp [h.symm, h2]
  · right; simp [h]

theorem intPairLe_trans (p q r : Int × Int)
    (h1 : CodeService.intPairLe p q = true)
    (h2 : CodeService.intPairLe q r = true) :
    CodeService.intPairLe p r = true := by
  unfold CodeService.intPairLe at h1 h2 ⊢
  simp only [Bool.or_eq_true, decide_eq_true_eq, Bool.and_eq_true] at h1 h2 ⊢
  rcases h1 with h1 | ⟨h1a, h1b⟩ <;> rcases h2 with h2 | ⟨h2a, h2b⟩
  · left; omega
  · left; omega
  · left; omega
  · right; exact ⟨by omega, by omega⟩

/-- Claim C7: processed refactoring suggestions are a permutation of the
formatted input, ordered by `(impactScore, confidence)` descending, ties
(fixed key value) keep their generation order, and re-running the ranking
on the ranked list changes nothing. -/
theorem c7_suggestion_ranking_stable (l : List RawSuggestion) :
    List.Perm (CodeService.process_refactor_suggestions l)
        (l.map CodeService.processSuggestion) ∧
    (CodeService.process_refactor_suggestions l).Pairwise
      (fun a b => CodeService.intPairLe (CodeService.suggestionKey b)
        (CodeService.suggestionKey a) = true) ∧
    (∀ k : Int × Int,
      (CodeService.process_refactor_suggestions l).filter
          (fun x => decide (CodeService.suggestionKey x = k)) =
        (l.map CodeService.processSuggestion).filter
          (fun x => decide (CodeService.suggestionKey x = k))) ∧
    StableSort.sortStable
        (fun a b => CodeService.intPairLe (CodeService.suggestionKey b)
          (CodeService.suggestionKey a))
        (CodeService.process_refactor_suggestions l) =
      CodeService.process_refactor_suggestions l := by
  have htot : ∀ a b : ProcessedSuggestion,
      CodeService.intPairLe (CodeService.suggestionKey b)
        (CodeService.suggestionKey a) = true ∨
      CodeService.intPairLe (CodeService.suggestionKey a)
        (CodeService.suggestionKey b) = true :=
    fun a b => intPairLe_total _ _
  have htrans : ∀ a b c : ProcessedSuggestion,
      CodeService.intPairLe (CodeService.suggestionKey b)
        (CodeService.suggestionKey a) = true →
      CodeService.intPairLe (CodeService.suggestionKey c)
        (CodeService.suggestionKey b) = true →
      CodeService.intPairLe (CodeService.suggestionKey c)
        (CodeService.suggestionKey a) = true :=
    fun a b c h1 h2 => intPairLe_trans _ _ _ h2 h1
  refine ⟨StableSort.perm_sortStable _ _,
    StableSort.pairwise_sortStable _ htot htrans _, ?_, ?_⟩
  · intro k
    refine StableSort.filter_sortStable _ _ ?_ _
    intro a b ha hb
    rw [decide_eq_true_eq] at ha hb
    rw [ha, hb]
    exact intPairLe_refl k
  · exact StableSort.sortStable_of_pairwise _ _
      (StableSort.pairwise_sortStable _ htot htrans _)

/-- Claim C8: the linter pipeline's issue, metric, function, and insight
content is a function of `(code, language)` alone — two runs from any two
agent states at any two times agree on all of it (only the timestamp and
performance metadata can differ). -/
theorem c8_pipeline_deterministic (pyAst : LinterAgent.PyParser)
    (st1 st2 : BaseAgent.AgentState) (code language : String)
    (s1 e1 s2 e2 : Int) :
    (LinterAgent.analyze pyAst st1 code language s1 e1).1.issues =
        (LinterAgent.analyze pyAst st2 code language s2 e2).1.issues ∧
    (LinterAgent.analyze pyAst st1 code language s1 e1).1.metrics =
        (LinterAgent.analyze pyAst st2 code language s2 e2).1.metrics ∧
    (LinterAgent.analyze pyAst st1 code language s1 e1).1.functions =
        (LinterAgent.analyze pyAst st2 code language s2 e2).1.functions ∧
    (LinterAgent.analyze pyAst st1 code language s1 e1).1.ai_insights =
        (LinterAgent.analyze pyAst st2 code language s2 e2).1.ai_insights := by
  unfold LinterAgent.analyze
  by_cases h : Py.blank code <;>
    simp [h, LinterAgent.postprocess_results]

theorem cs_get_absent {s : CodeService.State} {code : String} (now : Int)
    (h : PyDict.get? s.analysis_cache (CodeService.generate_code_hash code) = none) :
    CodeService.get_cached_analysis s code now = (none, s) := by
  unfold CodeService.get_cached_analysis
  rw [h]

theorem cs_get_no_timestamp {s : CodeService.State} {code : String} {v : ProcessedAnalysis}
    (now : Int)
    (hv : PyDict.get? s.analysis_cache (CodeService.generate_code_hash code) = some v)
    (ht : PyDict.get? s.cache_timestamps (CodeService.generate_code_hash code) = none) :
    CodeService.get_cached_analysis s code now =
      (none, CodeService.remove_from_cache s (CodeService.generate_code_hash code)) := by
  unfold CodeService.get_cached_analysis
  rw [hv, ht]

theorem cs_get_fresh {s : CodeService.State} {code : String} {v : ProcessedAnalysis}
    {ts : Int} (now : Int)
    (hv : PyDict.get? s.analysis_cache (CodeService.generate_code_hash code) = some v)
    (ht : PyDict.get? s.cache_timestamps (CodeService.generate_code_hash code) = some ts)
    (hf : now - ts < s.cache_timeout) :
    CodeService.get_cached_analysis s code now =
      (some v, { s with cache_access_count := PyDict.insert s.cache_access_count (CodeService.generate_code_hash code) ((PyDict.get? s.cache_access_count (CodeService.generate_code_hash code)).getD 0 + 1) }) := by
  unfold CodeService.get_cached_analysis
  rw [hv, ht]
  dsimp only
  rw [if_pos hf]

theorem cs_get_stale {s : CodeService.State} {code : String} {v : ProcessedAnalysis}
    {ts : Int} (now : Int)
    (hv : PyDict.get? s.analysis_cache (CodeService.generate_code_hash code) = some v)
    (ht : PyDict.get? s.cache_timestamps (CodeService.generate_code_hash code) = some ts)
    (hf : ¬ now - ts < s.cache_timeout) :
    CodeService.get_cached_analysis s code now =
      (none, CodeService.remove_from_cache s (CodeService.generate_code_hash code)) := by
  unfold CodeService.get_cached_analysis
  rw [hv, ht]
  dsimp only
  rw [if_neg hf]

/-- Claim C3 (amended): a cache get returns the stored value iff an entry
exists and `now - createdAt < TTL`; a hit increments the entry's access
count and leaves both the stored results and the stored (creation)
timestamps untouched — there is no last-accessed time to refresh; a miss,
whether the entry is absent or expired, leaves no entry behind, so no
later get at any time can re-expose a stale value. -/
theorem c3_get_ttl (s : CodeService.State) (hwf : CodeService.WF s)
    (code : String) (now : Int) :
    ((CodeService.get_cached_analysis s code now).1.isSome = true ↔
      (∃ v ts, PyDict.get? s.analysis_cache (CodeService.generate_code_hash code) = some v ∧
        PyDict.get? s.cache_timestamps (CodeService.generate_code_hash code) = some ts ∧
        now - ts < s.cache_timeout)) ∧
    (∀ v, (CodeService.get_cached_analysis s code now).1 = some v →
      PyDict.get? s.analysis_cache (CodeService.generate_code_hash code) = some v) ∧
    ((CodeService.get_cached_analysis s code now).1.isSome = true →
      ((CodeService.get_cached_analysis s code now).2.analysis_cache = s.analysis_cache ∧
       (CodeService.get_cached_analysis s code now).2.cache_timestamps = s.cache_timestamps ∧
       PyDict.get? (CodeService.get_cached_analysis s code now).2.cache_access_count
           (CodeService.generate_code_hash code) =
         some ((PyDict.get? s.cache_access_count
           (CodeService.generate_code_hash code)).getD 0 + 1))) ∧
    ((CodeService.get_cached_analysis s code now).1 = none →
      ∀ t2 : Int,
        (CodeService.get_cached_analysis
          (CodeService.get_cached_analysis s code now).2 code t2).1 = none) := by
  have hnd : (PyDict.keys s.analysis_cache).Nodup := hwf.2.2
  cases hv : PyDict.get? s.analysis_cache (CodeService.generate_code_hash code) with
  | none =>
    rw [cs_get_absent now hv]
    refine ⟨by simp [hv], by simp, by simp, ?_⟩
    intro _ t2
    rw [cs_get_absent t2 hv]
  | some v =>
    cases ht : PyDict.get? s.cache_timestamps (CodeService.generate_code_hash code) with
    | none =>
      rw [cs_get_no_timestamp now hv ht]
      have hrm : PyDict.get?
          (CodeService.remove_from_cache s (CodeService.generate_code_hash code)).analysis_cache
          (CodeService.generate_code_hash code) = none := PyDict.get?_pop_self hnd
      refine ⟨by simp [ht], by simp, by simp, ?_⟩
      intro _ t2
      rw [cs_get_absent t2 hrm]
    | some ts =>
      by_cases hf : now - ts < s.cache_timeout
      · rw [cs_get_fresh now hv ht hf]
        refine ⟨?_, ?_, ?_, ?_⟩
        · simp only [Option.isSome_some, true_iff]
          exact ⟨v, ts, rfl, rfl, hf⟩
        · intro w hw
          exact hw
        · intro _
          exact ⟨rfl, rfl, PyDict.get?_insert_self _ _ _⟩
        · intro h
          cases h
      · rw [cs_get_stale now hv ht hf]
        have hrm : PyDict.get?
            (CodeService.remove_from_cache s (CodeService.generate_code_hash code)).analysis_cache
            (CodeService.generate_code_hash code) = none := PyDict.get?_pop_self hnd
        refine ⟨?_, by simp, by simp, ?_⟩
        · simp only [Option.isSome_none, Bool.false_eq_true, false_iff]
          rintro ⟨w, ts2, hw, ht2, hf2⟩
          injection ht2 with hts
          subst hts
          exact hf hf2
        · intro _ t2
          rw [cs_get_absent t2 hrm]

namespace CodeService

/-- Looking a key up after a fold of `_remove_from_cache` calls: removed
keys read as absent, all other keys are untouched. -/
theorem get?_foldl_remove {s : State}
    (hnd : (PyDict.keys s.analysis_cache).Nodup) (ks : List String)
    (key : String) :
    PyDict.get? ((ks.foldl remove_from_cache s).analysis_cache) key =
      if key ∈ ks then none else PyDict.get? s.analysis_cache key := by
  induction ks generalizing s with
  | nil => simp
  | cons k t ih =>
    have hnd' : (PyDict.keys (remove_from_cache s k).analysis_cache).Nodup := by
      rw [keys_remove_from_cache]
      exact hnd.erase k
    rw [List.foldl_cons, ih hnd']
    by_cases hkey : key ∈ t
    · rw [if_pos hkey, if_pos (List.mem_cons_of_mem _ hkey)]
    · rw [if_neg hkey]
      by_cases heq : key = k
      · subst heq
        rw [if_pos (List.mem_cons_self _ _)]
        exact PyDict.get?_pop_self hnd
      · rw [if_neg (by simp [heq, hkey])]
        exact PyDict.get?_pop_ne _ _ _ fun h => heq h.symm

end CodeService

theorem pairwise_take_drop {α : Type} {r : α → α → Prop} {l : List α}
    (h : l.Pairwise r) (k : Nat) :
    ∀ a ∈ l.take k, ∀ b ∈ l.drop k, r a b := by
  rw [← List.take_append_drop k l, List.pairwise_append] at h
  exact h.2.2

/-- Claim C1 (amended): on a put over capacity the cache evicts by lowest
access count, not by recency — `_cleanup_lru_cache` stably sorts the
access-count dict ascending and drops the first `max(1, n // 4)` keys, so
every evicted entry's access count is at most every survivor's (ties
broken by dict insertion order), the outcome is a deterministic function
of the recorded access history, and no other entry is touched. -/
theorem c1_eviction_by_access_count (s : CodeService.State)
    (hwf : CodeService.WF s) :
    (∀ p ∈ (CodeService.evictionOrder s).take (CodeService.evictionCount s),
      ∀ q ∈ (CodeService.evictionOrder s).drop (CodeService.evictionCount s),
        p.2 ≤ q.2) ∧
    (∀ key : String,
      PyDict.get? (CodeService.cleanup_lru_cache s).analysis_cache key =
        if key ∈ ((CodeService.evictionOrder s).take
            (CodeService.evictionCount s)).map Prod.fst then none
        else PyDict.get? s.analysis_cache key) := by
  constructor
  · have htot : ∀ a b : String × Nat,
        (decide (a.2 ≤ b.2)) = true ∨ (decide (b.2 ≤ a.2)) = true := by
      intro a b
      simpa using Nat.le_total a.2 b.2
    have htrans : ∀ a b c : String × Nat,
        (decide (a.2 ≤ b.2)) = true → (decide (b.2 ≤ c.2)) = true →
        (decide (a.2 ≤ c.2)) = true := by
      intro a b c h1 h2
      simp only [decide_eq_true_eq] at h1 h2 ⊢
      omega
    have hp := StableSort.pairwise_sortStable
      (fun a b : String × Nat => a.2 ≤ b.2) htot htrans s.cache_access_count
    have := pairwise_take_drop hp (CodeService.evictionCount s)
    intro p hp2 q hq2
    have := this p hp2 q hq2
    simpa using this
  · intro key
    unfold CodeService.cleanup_lru_cache
    by_cases he : s.cache_access_count.isEmpty
    · have hemp : s.cache_access_count = [] := by
        simpa [List.isEmpty_iff] using he
      rw [if_pos he]
      have : CodeService.evictionOrder s = [] := by
        rw [CodeService.evictionOrder, hemp]
        rfl
      rw [this]
      simp
    · rw [if_neg he]
      show PyDict.get? (((CodeService.evictionOrder s).take
          (CodeService.evictionCount s)).foldl
            (fun st p => CodeService.remove_from_cache st p.1) s).analysis_cache key = _
      rw [← List.foldl_map (f := Prod.fst) (g := CodeService.remove_from_cache)]
      exact CodeService.get?_foldl_remove hwf.2.2 _ key

/-- Claim C6: starting from a well-formed cache within its configured
capacity, every mutating operation — `process_analysis` (the put path),
`clear_old_cache` (the expiry purge), `clear_cache`, and the purge inside
`get_cached_analysis` — leaves the entry count at or below the capacity. -/
theorem c6_capacity_bound (s : CodeService.State) (hwf : CodeService.WF s)
    (hmax : 0 < s.max_cache_size)
    (hle : s.analysis_cache.length ≤ s.max_cache_size) :
    (∀ analysis code language now,
      (CodeService.process_analysis s analysis code language now).2.analysis_cache.length ≤
        s.max_cache_size) ∧
    (∀ now, (CodeService.clear_old_cache s now).analysis_cache.length ≤
        s.max_cache_size) ∧
    (CodeService.clear_cache s).analysis_cache.length ≤ s.max_cache_size ∧
    (∀ code now,
      (CodeService.get_cached_analysis s code now).2.analysis_cache.length ≤
        s.max_cache_size) := by
  refine ⟨?_, ?_, ?_, ?_⟩
  · intro analysis code language now
    exact (CodeService.WF_process_analysis hwf hmax hle analysis code language now).2
  · intro now
    exact (CodeService.WF_clear_old_cache hwf hle now).2
  · have := (CodeService.WF_clear_cache s).2
    omega
  · intro code now
    have := (CodeService.WF_get_cached_analysis hwf code now).2.1
    omega

/-- Claim C2 (amended): the server rejects empty or blank `analyze_code`
input with the error event `No code provided for analysis` (never
`analysis_complete`), while the linter agent itself, called directly on
blank code, returns the empty well-formed result with zero issues, zero
complexity, and zero functions. -/
theorem c2_blank_input_error (pyAst : LinterAgent.PyParser)
    (cs : CodeService.State) (ag : BaseAgent.AgentState)
    (d : SocketHandlers.HandlerData) (now : Int)
    (hblank : Py.strip (d.code.getD "") = "") :
    (SocketHandlers.handle_analyze_code pyAst cs ag (some d) now).1 =
        [SocketHandlers.Event.error "No code provided for analysis"] ∧
    (∀ st code language s e, Py.blank code = true →
      (LinterAgent.analyze pyAst st code language s e).1.issues = [] ∧
      (LinterAgent.analyze pyAst st code language s e).1.metrics.complexity = 0 ∧
      (LinterAgent.analyze pyAst st code language s e).1.functions = []) := by
  constructor
  · unfold SocketHandlers.handle_analyze_code
    dsimp only
    rw [if_pos hblank]
  · intro st code language s e hb
    unfold LinterAgent.analyze
    simp [hb, LinterAgent.postprocess_results]

/-- Claim C5 (amended): on an empty pool `get_linter_agent` creates one
agent, attempts its initialization exactly once, ignores the boolean
outcome, and returns the handle regardless — a failed model load yields an
`error`-status handle with no retry and no pool-level failure; on a
nonempty pool the first agent is returned with no initialization call. -/
theorem c5_acquire_no_retry (loadOk : Bool) (p : AgentPool.PoolState) :
    (p.linter_agents = [] →
      (AgentPool.get_linter_agent loadOk p).2.2 = 1 ∧
      (AgentPool.get_linter_agent loadOk p).1.status =
        (if loadOk then "ready" else "error") ∧
      (AgentPool.get_linter_agent loadOk p).2.1.linter_agents =
        [(AgentPool.get_linter_agent loadOk p).1]) ∧
    (∀ a rest, p.linter_agents = a :: rest →
      AgentPool.get_linter_agent loadOk p = (a, p, 0)) := by
  constructor
  · intro h
    cases loadOk <;>
      simp [AgentPool.get_linter_agent, h, BaseAgent.initAgent,
        BaseAgent.initAgentState]
  · intro a rest h
    simp [AgentPool.get_linter_agent, h]

/-- Claim C4 (amended): issue and suggestion ids are hashes of their
identifying fields alone (equal fields give equal ids); test-case ids
embed the enumeration index around the hash of `(name, type)`
(`test_{i}_{hash}`), so every id is a deterministic function of the input
list — identical lists yield identical ids across invocations — but a
test id is not a function of the item's fields alone. -/
theorem c4_deterministic_ids (tests : List RawTestCase)
    (sugs : List RawSuggestion) :
    List.Perm ((CodeService.process_test_cases tests).map (fun t => t.id))
        (tests.enum.map fun p =>
          "test_" ++ toString p.1 ++ "_" ++ CodeService.generate_test_id p.2) ∧
    List.Perm
        ((CodeService.process_refactor_suggestions sugs).map (fun x => x.id))
        (sugs.map CodeService.generate_suggestion_id) ∧
    (∀ s1 s2 : RawSuggestion, s1.kind = s2.kind → s1.title = s2.title →
      s1.line_start = s2.line_start →
      CodeService.generate_suggestion_id s1 = CodeService.generate_suggestion_id s2) ∧
    (∀ i1 i2 : RawIssue, i1.severity = i2.severity → i1.message = i2.message →
      i1.line = i2.line →
      CodeService.generate_issue_id i1 = CodeService.generate_issue_id i2) := by
  refine ⟨?_, ?_, ?_, ?_⟩
  · have hp := StableSort.perm_sortStable
      (fun a b => CodeService.natPairLe (CodeService.testKey b) (CodeService.testKey a))
      (tests.enum.map fun p => CodeService.processTest p.1 p.2)
    have h2 := hp.map (fun t : ProcessedTest => t.id)
    rw [List.map_map] at h2
    exact h2
  · have hp := StableSort.perm_sortStable
      (fun a b => CodeService.intPairLe (CodeService.suggestionKey b)
        (CodeService.suggestionKey a))
      (sugs.map CodeService.processSuggestion)
    have h2 := hp.map (fun x : ProcessedSuggestion => x.id)
    rw [List.map_map] at h2
    exact h2
  · intro s1 s2 h1 h2 h3
    unfold CodeService.generate_suggestion_id
    rw [h1, h2, h3]
  · intro i1 i2 h1 h2 h3
    unfold CodeService.generate_issue_id
    rw [h1, h2, h3]



/-- Witness for the amended C1 theorem at a concrete two-entry state. -/
theorem c1_eviction_witness :
    PyDict.get? (CodeService.cleanup_lru_cache Demo.lruState).analysis_cache "b" =
      if "b" ∈ ((CodeService.evictionOrder Demo.lruState).take
          (CodeService.evictionCount Demo.lruState)).map Prod.fst then none
      else PyDict.get? Demo.lruState.analysis_cache "b" :=
  (c1_eviction_by_access_count Demo.lruState (by decide)).2 "b"

/-- Witness for the amended C2 theorem on whitespace-only input. -/
theorem c2_blank_input_error_witness :
    (SocketHandlers.handle_analyze_code Demo.pyAstStub (CodeService.initState 3600)
        BaseAgent.initAgentState (some ⟨some "  ", some "python"⟩) 0).1 =
      [SocketHandlers.Event.error "No code provided for analysis"] :=
  (c2_blank_input_error Demo.pyAstStub (CodeService.initState 3600)
    BaseAgent.initAgentState ⟨some "  ", some "python"⟩ 0 (by decide)).1

/-- Witness for the amended C5 theorem: a successful lazy initialization
still makes exactly one attempt. -/
theorem c5_acquire_no_retry_witness :
    (AgentPool.get_linter_agent true AgentPool.initPool).2.2 = 1 ∧
    (AgentPool.get_linter_agent true AgentPool.initPool).1.status =
      (if true then "ready" else "error") :=
  ⟨((c5_acquire_no_retry true AgentPool.initPool).1 rfl).1,
   ((c5_acquire_no_retry true AgentPool.initPool).1 rfl).2.1⟩

/-- Witness for the C6 capacity theorem at the freshly constructed service. -/
theorem c6_capacity_bound_witness :
    (CodeService.process_analysis (CodeService.initState 3600) Demo.linterResult
        "A" "javascript" 0).2.analysis_cache.length ≤
      (CodeService.initState 3600).max_cache_size :=
  (c6_capacity_bound (CodeService.initState 3600) (by decide) (by decide)
    (by decide)).1 Demo.linterResult "A" "javascript" 0

/-- Witness for the amended C4 theorem: suggestion ids agree whenever the
identifying fields agree, regardless of the other fields. -/
theorem c4_deterministic_ids_witness :
    CodeService.generate_suggestion_id
        ⟨some "performance", some "t", none, none, none, some 1, none, none,
         none, none, none, none⟩ =
      CodeService.generate_suggestion_id
        ⟨some "performance", some "t", some "other", none, none, some 1, none,
         some "low", some 9, some 80, none, none⟩ :=
  (c4_deterministic_ids [] []).2.2.1 _ _ rfl rfl rfl

/-- Witness for the C3 theorem: the hit effects at a concrete one-entry
cache read at `T + 30` with TTL 60. -/
theorem c3_get_ttl_witness :
    (CodeService.get_cached_analysis Demo.ttlState "x" 30).2.analysis_cache =
        Demo.ttlState.analysis_cache ∧
    (CodeService.get_cached_analysis Demo.ttlState "x" 30).2.cache_timestamps =
        Demo.ttlState.cache_timestamps ∧
    PyDict.get? (CodeService.get_cached_analysis Demo.ttlState "x" 30).2.cache_access_count
        (CodeService.generate_code_hash "x") =
      some ((PyDict.get? Demo.ttlState.cache_access_count
        (CodeService.generate_code_hash "x")).getD 0 + 1) :=
  (c3_get_ttl Demo.ttlState (by decide) "x" 30).2.2.1 (by decide)

/-- Claim C3 counterexample: a hit at `T + 30` (TTL 60) increments the
access count but refreshes no stored time — the timestamp dict is
unchanged — and the entry still expires (and is removed) at `T + 61`. -/
theorem c3_counterexample :
    (CodeService.get_cached_analysis Demo.ttlState "x" 30).1.isSome = true ∧
    (CodeService.get_cached_analysis Demo.ttlState "x" 30).2.cache_timestamps =
      Demo.ttlState.cache_timestamps ∧
    (CodeService.get_cached_analysis
      (CodeService.get_cached_analysis Demo.ttlState "x" 30).2 "x" 61).1 = none := by
  decide

/-- Claim C2 counterexample: `analyze_code` with `code = ""` is answered
by the error event `No code provided for analysis` — not by an
`analysis_complete` event carrying an empty result. -/
theorem c2_counterexample :
    (SocketHandlers.handle_analyze_code Demo.pyAstStub (CodeService.initState 3600)
        BaseAgent.initAgentState (some ⟨some "", some "javascript"⟩) 0).1 =
      [SocketHandlers.Event.error "No code provided for analysis"] := by
  decide

/-- Claim C4 counterexample: two identical test-case dicts in one input
list receive different ids — the id embeds the list position — so the id
is not derived from the item's identifying fields alone. -/
theorem c4_counterexample :
    (CodeService.process_test_cases [Demo.tcase, Demo.tcase]).map (fun t => t.id) =
        ["test_0_7879625f", "test_1_7879625f"] ∧
    ("test_0_7879625f" : String) ≠ "test_1_7879625f" := by
  decide

/-- Claim C5 counterexample: with a failing `_load_model`, acquiring from
an empty pool returns a handle already in `error` state after a single
initialization attempt — no retry happens and no pool-level failure is
raised. -/
theorem c5_counterexample :
    (AgentPool.get_linter_agent false AgentPool.initPool).1.status = "error" ∧
    (AgentPool.get_linter_agent false AgentPool.initPool).2.2 = 1 := by
  decide

/-- Claim C1 counterexample: at capacity 3, after insert A (t=0), two hits
on A (t=1,2), insert B (t=3), insert C (t=4), the put of D (t=5) evicts B
— the entry with the lowest access count — even though B's last access
(t=3) is more recent than A's (t=2); recency is not consulted, so the
claimed least-recently-used-by-last-access order does not hold (while A,
the most-accessed entry, indeed survives). -/
theorem c1_counterexample :
    PyDict.get? Demo.c1_s6.analysis_cache (CodeService.generate_code_hash "B") = none ∧
    (PyDict.get? Demo.c1_s6.analysis_cache (CodeService.generate_code_hash "A")).isSome = true ∧
    (PyDict.get? Demo.c1_s6.analysis_cache (CodeService.generate_code_hash "C")).isSome = true ∧
    (PyDict.get? Demo.c1_s6.analysis_cache (CodeService.generate_code_hash "D")).isSome = true := by
  decide
